import Mathlib

/-!
# foodiebucks-backend: the request handler of `main.go`

A shallow embedding of `src/main.go` and a development of its request-handling
contract.  The handler is a thin adapter around three Go libraries
(`encoding/json`, `net/http`, the DynamoDB `attributevalue` decoder) and one
external store.  The libraries are deterministic and are embedded as
executable functions over their documented behaviour; the store and the SDK
configuration loader are the environment and are a parameter (`World`).
Effects (store lookups, log lines, process exit) are recorded in an explicit
trace.  Go strings are modelled as Lean strings, that is, as valid Unicode
text.

The definitions come first, the theorems after them.
-/

namespace FoodieBucks

/-! ## Go values used by the handler -/

/-- Go `error` values the handler can observe.  The text of an error supplied
by the environment is carried as is; library errors keep their kind. -/
inductive GoError where
  /-- `*json.SyntaxError`: the body is not well-formed JSON. -/
  | jsonSyntax
  /-- `*json.UnmarshalTypeError`: a JSON value of kind `value` met a Go field of
  another type. -/
  | jsonType (value : String)
  /-- `*attributevalue.UnmarshalTypeError` with its `Value`. -/
  | avType (value : String)
  /-- `*strconv.NumError` from `strconv.ParseInt`, with the offending text. -/
  | numSyntax (s : String)
  /-- `*strconv.NumError` with `ErrRange`. -/
  | numRange (s : String)
  /-- An error returned by the SDK (configuration or store). -/
  | sdk (msg : String)
  /-- An error returned by `json.Marshal`. -/
  | marshal (msg : String)
  deriving DecidableEq, Repr

/-- The struct `foodieBuckRequest` (main.go:19-23). -/
structure foodieBuckRequest where
  PK : String
  SK : String
  TableName : String
  deriving DecidableEq, Repr

/-- The struct `FoodieBuckProfile` (main.go:28-35).  Go `int` is modelled as
`Int`; the decoder only ever stores values of the 64-bit range. -/
structure FoodieBuckProfile where
  PK : String
  SK : String
  Name : String
  Available : Int
  Used : Int
  Increment : Int
  deriving DecidableEq, Repr

/-- The package variable `tableName` (main.go:37). -/
def tableName : String := "dev.glennmeyer.dev-foodiebucks"

/-- The part `RequestContext.HTTP` of an API Gateway v2 event that the handler
reads. -/
structure APIGatewayV2HTTPRequestContextHTTPDescription where
  Method : String
  deriving DecidableEq, Repr

/-- The part `RequestContext` of an API Gateway v2 event that the handler
reads. -/
structure APIGatewayV2HTTPRequestContext where
  HTTP : APIGatewayV2HTTPRequestContextHTTPDescription
  deriving DecidableEq, Repr

/-- The fields of `events.APIGatewayV2HTTPRequest` that the handler reads. -/
structure APIGatewayV2HTTPRequest where
  Body : String
  RequestContext : APIGatewayV2HTTPRequestContext
  deriving DecidableEq, Repr

/-- The fields of `events.APIGatewayV2HTTPResponse` that the handler sets; all
other fields keep their zero value. -/
structure APIGatewayV2HTTPResponse where
  StatusCode : Int
  Body : String
  deriving DecidableEq, Repr

/-! ## `net/http`: status codes and their text -/

/-- The constant `http.StatusOK`. -/
def StatusOK : Int := 200

/-- The constant `http.StatusMethodNotAllowed`. -/
def StatusMethodNotAllowed : Int := 405

/-- The constant `http.StatusUnprocessableEntity`. -/
def StatusUnprocessableEntity : Int := 422

/-- The constant `http.StatusInternalServerError`. -/
def StatusInternalServerError : Int := 500

/-- The table behind `http.StatusText`. -/
def statusText : List (Int × String) :=
  [ (100, "Continue"), (101, "Switching Protocols"), (102, "Processing"),
    (103, "Early Hints"),
    (200, "OK"), (201, "Created"), (202, "Accepted"),
    (203, "Non-Authoritative Information"), (204, "No Content"),
    (205, "Reset Content"), (206, "Partial Content"), (207, "Multi-Status"),
    (208, "Already Reported"), (226, "IM Used"),
    (300, "Multiple Choices"), (301, "Moved Permanently"), (302, "Found"),
    (303, "See Other"), (304, "Not Modified"), (305, "Use Proxy"),
    (307, "Temporary Redirect"), (308, "Permanent Redirect"),
    (400, "Bad Request"), (401, "Unauthorized"), (402, "Payment Required"),
    (403, "Forbidden"), (404, "Not Found"), (405, "Method Not Allowed"),
    (406, "Not Acceptable"), (407, "Proxy Authentication Required"),
    (408, "Request Timeout"), (409, "Conflict"), (410, "Gone"),
    (411, "Length Required"), (412, "Precondition Failed"),
    (413, "Request Entity Too Large"), (414, "Request URI Too Long"),
    (415, "Unsupported Media Type"), (416, "Requested Range Not Satisfiable"),
    (417, "Expectation Failed"), (418, "I\x27m a teapot"),
    (421, "Misdirected Request"), (422, "Unprocessable Entity"),
    (423, "Locked"), (424, "Failed Dependency"), (425, "Too Early"),
    (426, "Upgrade Required"), (428, "Precondition Required"),
    (429, "Too Many Requests"), (431, "Request Header Fields Too Large"),
    (451, "Unavailable For Legal Reasons"),
    (500, "Internal Server Error"), (501, "Not Implemented"),
    (502, "Bad Gateway"), (503, "Service Unavailable"),
    (504, "Gateway Timeout"), (505, "HTTP Version Not Supported"),
    (506, "Variant Also Negotiates"), (507, "Insufficient Storage"),
    (508, "Loop Detected"), (510, "Not Extended"),
    (511, "Network Authentication Required") ]

/-- The function `http.StatusText`: the text of a known code, the empty string
for every other code. -/
def StatusText (code : Int) : String :=
  (statusText.lookup code).getD ""

/-! ## `encoding/json`: values and the reader

The reader follows the scanner of `encoding/json`.  Every function that
recurses on fuel is called with more fuel than its input has characters;
`scanString_fuel`, `scanValue_fuel` and `parseJSON_fuel` below show that this
is enough: more fuel never changes an answer. -/

/-- A JSON value.  A number keeps its literal, as the Go decoder does until it
knows the target type. -/
inductive JSONValue where
  | null
  | bool (b : Bool)
  | number (lit : List Char)
  | string (s : List Char)
  | array (elems : List JSONValue)
  | object (members : List (List Char × JSONValue))

/-- The scanner's `isSpace`. -/
def isSpace (c : Char) : Bool :=
  c = ' ' || c = '\t' || c = '\r' || c = '\n'

/-- Drop leading JSON white space. -/
def skipSpace : List Char → List Char
  | [] => []
  | c :: cs => if isSpace c then skipSpace cs else c :: cs

/-- The value of a hexadecimal digit, as in `getu4`. -/
def hexVal (c : Char) : Option Nat :=
  if '0' ≤ c ∧ c ≤ '9' then some (c.toNat - '0'.toNat)
  else if 'a' ≤ c ∧ c ≤ 'f' then some (c.toNat - 'a'.toNat + 10)
  else if 'A' ≤ c ∧ c ≤ 'F' then some (c.toNat - 'A'.toNat + 10)
  else none

/-- Four hexadecimal digits read as a number. -/
def hex4 (a b c d : Char) : Option Nat :=
  match hexVal a, hexVal b, hexVal c, hexVal d with
  | some x, some y, some z, some w => some (((x * 16 + y) * 16 + z) * 16 + w)
  | _, _, _, _ => none

/-- The replacement character U+FFFD. -/
def replacementChar : Char := Char.ofNat 0xFFFD

/-- The function `getu4` applied to the text after an escape: the code unit of
a following `\uXXXX`, if there is one. -/
def getu4 : List Char → Option Nat
  | '\\' :: 'u' :: a :: b :: c :: d :: _ => hex4 a b c d
  | _ => none

/-- The rune for the code unit `rr` of a `\uXXXX` escape followed by `rest`, and
how many further characters it consumes: a high surrogate followed by a low
one is combined, any other surrogate is replaced by U+FFFD. -/
def decodeEscapedUnit (rr : Nat) (rest : List Char) : Char × Nat :=
  if 0xD800 ≤ rr ∧ rr < 0xE000 then
    match getu4 rest with
    | some rr1 =>
      if rr < 0xDC00 ∧ 0xDC00 ≤ rr1 ∧ rr1 < 0xE000 then
        (Char.ofNat (((rr - 0xD800) * 1024 + (rr1 - 0xDC00)) + 0x10000), 6)
      else (replacementChar, 0)
    | none => (replacementChar, 0)
  else (Char.ofNat rr, 0)

/-- The escape after a backslash, as the scanner accepts it and `unquote`
reads it: the character it stands for and the input after it.  A `\u` escape
takes four hexadecimal digits, and a second `\u` escape when the two are a
surrogate pair. -/
def scanEscape : List Char → Option (Char × List Char)
  | [] => none
  | e :: es =>
    if e = 'u' then
      match es with
      | a :: b :: c :: d :: rest =>
        match hex4 a b c d with
        | none => none
        | some rr =>
          some ((decodeEscapedUnit rr rest).1, rest.drop (decodeEscapedUnit rr rest).2)
      | _ => none
    else if e = '"' then some ('"', es)
    else if e = '\\' then some ('\\', es)
    else if e = '/' then some ('/', es)
    else if e = 'b' then some (Char.ofNat 8, es)
    else if e = 'f' then some (Char.ofNat 12, es)
    else if e = 'n' then some ('\n', es)
    else if e = 'r' then some ('\r', es)
    else if e = 't' then some ('\t', es)
    else none

/-- The text of a string literal after its opening quote: the unquoted string
and the input after the closing quote.  A control character, an unknown
escape or a missing closing quote is a syntax error. -/
def scanString : Nat → List Char → Option (List Char × List Char)
  | 0, _ => none
  | _ + 1, [] => none
  | fuel + 1, c :: cs =>
    if c = '"' then some ([], cs)
    else if c = '\\' then
      match scanEscape cs with
      | none => none
      | some (ch, rest) => (scanString fuel rest).map fun x => (ch :: x.1, x.2)
    else if c.toNat < 0x20 then none
    else (scanString fuel cs).map fun x => (c :: x.1, x.2)

/-- A maximal run of decimal digits and the input after it. -/
def scanDigits : List Char → List Char × List Char
  | [] => ([], [])
  | c :: cs =>
    if c.isDigit then
      let (ds, r) := scanDigits cs
      (c :: ds, r)
    else ([], c :: cs)

/-- The integer part of a number: `0`, or a non-zero digit and more digits. -/
def scanIntPart : List Char → Option (List Char × List Char)
  | [] => none
  | c :: cs =>
    if c = '0' then some (['0'], cs)
    else if c.isDigit then
      let (ds, r) := scanDigits cs
      some (c :: ds, r)
    else none

/-- An optional fraction: a dot and at least one digit. -/
def scanFraction : List Char → Option (List Char × List Char)
  | [] => some ([], [])
  | c :: cs =>
    if c = '.' then
      match scanDigits cs with
      | ([], _) => none
      | (ds, r) => some ('.' :: ds, r)
    else some ([], c :: cs)

/-- An optional exponent: `e` or `E`, an optional sign, at least one digit. -/
def scanExponent : List Char → Option (List Char × List Char)
  | [] => some ([], [])
  | c :: cs =>
    if c = 'e' ∨ c = 'E' then
      let (sign, cs1) : List Char × List Char :=
        match cs with
        | s :: t => if s = '+' ∨ s = '-' then ([s], t) else ([], cs)
        | [] => ([], cs)
      match scanDigits cs1 with
      | ([], _) => none
      | (ds, r) => some (c :: sign ++ ds, r)
    else some ([], c :: cs)

/-- A number literal without sign and the input after it. -/
def scanUnsigned (cs : List Char) : Option (List Char × List Char) :=
  match scanIntPart cs with
  | none => none
  | some (ip, cs2) =>
    match scanFraction cs2 with
    | none => none
    | some (fp, cs3) =>
      match scanExponent cs3 with
      | none => none
      | some (ep, cs4) => some (ip ++ fp ++ ep, cs4)

/-- A number literal and the input after it: an optional minus sign, then the
integer part, an optional fraction and an optional exponent. -/
def scanNumber : List Char → Option (List Char × List Char)
  | [] => none
  | c :: cs =>
    if c = '-' then (scanUnsigned cs).map fun (lit, r) => ('-' :: lit, r)
    else scanUnsigned (c :: cs)

/-- The scanner's `maxNestingDepth`. -/
def maxNestingDepth : Nat := 10000

/-- One of the literals `true`, `false` and `null` at the head of the input. -/
def scanLiteral : List Char → Option (JSONValue × List Char)
  | 't' :: 'r' :: 'u' :: 'e' :: r => some (JSONValue.bool true, r)
  | 'f' :: 'a' :: 'l' :: 's' :: 'e' :: r => some (JSONValue.bool false, r)
  | 'n' :: 'u' :: 'l' :: 'l' :: r => some (JSONValue.null, r)
  | _ => none

/-- The elements of a non-empty array after its opening bracket, each read by
`value`, up to and including the closing bracket. -/
def scanElements (value : List Char → Option (JSONValue × List Char)) :
    Nat → List Char → Option (List JSONValue × List Char)
  | 0, _ => none
  | fuel + 1, cs =>
    match value cs with
    | none => none
    | some (v, r) =>
      match skipSpace r with
      | c :: r1 =>
        if c = ',' then (scanElements value fuel r1).map fun (vs, r2) => (v :: vs, r2)
        else if c = ']' then some ([v], r1)
        else none
      | [] => none

/-- The members of a non-empty object after its opening brace (white space
skipped), each value read by `value`, up to and including the closing brace. -/
def scanMembers (value : List Char → Option (JSONValue × List Char)) :
    Nat → List Char → Option (List (List Char × JSONValue) × List Char)
  | 0, _ => none
  | fuel + 1, cs =>
    match cs with
    | c :: r =>
      if c = '"' then
        match scanString (r.length + 1) r with
        | none => none
        | some (key, r1) =>
          match skipSpace r1 with
          | c1 :: r2 =>
            if c1 = ':' then
              match value r2 with
              | none => none
              | some (v, r3) =>
                match skipSpace r3 with
                | c2 :: r4 =>
                  if c2 = ',' then
                    (scanMembers value fuel (skipSpace r4)).map
                      fun (ms, r5) => ((key, v) :: ms, r5)
                  else if c2 = '}' then some ([(key, v)], r4)
                  else none
                | [] => none
            else none
          | [] => none
      else none
    | [] => none

/-- One JSON value at the head of the input (leading white space skipped) and
the input after it.  `depth` is the number of arrays and objects that are
open; opening one beyond `maxNestingDepth` is a syntax error. -/
def scanValue : Nat → Nat → List Char → Option (JSONValue × List Char)
  | 0, _, _ => none
  | fuel + 1, depth, cs =>
    match skipSpace cs with
    | [] => none
    | c :: r =>
      if c = '{' then
        if depth + 1 > maxNestingDepth then none
        else
          match skipSpace r with
          | [] => none
          | c1 :: r1 =>
            if c1 = '}' then some (JSONValue.object [], r1)
            else
              (scanMembers (scanValue fuel (depth + 1)) fuel (c1 :: r1)).map
                fun (ms, r2) => (JSONValue.object ms, r2)
      else if c = '[' then
        if depth + 1 > maxNestingDepth then none
        else
          match skipSpace r with
          | [] => none
          | c1 :: r1 =>
            if c1 = ']' then some (JSONValue.array [], r1)
            else
              (scanElements (scanValue fuel (depth + 1)) fuel (c1 :: r1)).map
                fun (vs, r2) => (JSONValue.array vs, r2)
      else if c = '"' then
        (scanString (r.length + 1) r).map fun (s, r1) => (JSONValue.string s, r1)
      else if c = '-' ∨ c.isDigit then
        (scanNumber (c :: r)).map fun (lit, r1) => (JSONValue.number lit, r1)
      else scanLiteral (c :: r)

/-- The check `checkValid` together with the reading of the value: the input is
one JSON value between optional white space, or it is a syntax error. -/
def parseJSON (data : List Char) : Option JSONValue :=
  match scanValue (data.length + 1) 0 data with
  | none => none
  | some (v, r) => if skipSpace r = [] then some v else none

/-! ## `encoding/json`: decoding the body into `foodieBuckRequest` -/

/-- The fields of `foodieBuckRequest`, in declaration order. -/
inductive RequestField where
  | PK | SK | TableName
  deriving DecidableEq, Repr

/-- The `json` tag of a field of `foodieBuckRequest` (main.go:20-22). -/
def RequestField.jsonName : RequestField → List Char
  | .PK => "pk".toList
  | .SK => "sk".toList
  | .TableName => "tableName".toList

/-- The fields of `foodieBuckRequest` in the order the decoder searches
them. -/
def requestFields : List RequestField := [.PK, .SK, .TableName]

/-- Simple case folding as far as it can reach an ASCII letter: a lower-case
ASCII letter goes to its upper case, the Kelvin sign U+212A to `K` and the
long s U+017F to `S`; every other character this development compares stays
apart from the ASCII letters. -/
def foldRune (c : Char) : Char :=
  if 'a' ≤ c ∧ c ≤ 'z' then Char.ofNat (c.toNat - 32)
  else if c = Char.ofNat 0x212A then 'K'
  else if c = Char.ofNat 0x17F then 'S'
  else c

/-- The folded form of a name, under which the libraries compare names without
regard to case. -/
def foldName (s : List Char) : List Char := s.map foldRune

/-- The field of `foodieBuckRequest` that an object key selects: the field
whose tag is the key, else the first field whose tag equals the key under case
folding. -/
def findRequestField (key : List Char) : Option RequestField :=
  match requestFields.find? (fun f => f.jsonName = key) with
  | some f => some f
  | none => requestFields.find? (fun f => foldName f.jsonName = foldName key)

/-- Store a string in a field of the request. -/
def foodieBuckRequest.set (r : foodieBuckRequest) (f : RequestField) (s : String) :
    foodieBuckRequest :=
  match f with
  | .PK => { r with PK := s }
  | .SK => { r with SK := s }
  | .TableName => { r with TableName := s }

/-- The decoder's `saveError`: the first error is kept. -/
def saveError (saved : Option GoError) (e : GoError) : Option GoError :=
  match saved with
  | some e0 => some e0
  | none => some e

/-- The name the decoder gives the kind of a JSON value in an
`UnmarshalTypeError`. -/
def JSONValue.kindName : JSONValue → String
  | .null => "null"
  | .bool _ => "bool"
  | .number _ => "number"
  | .string _ => "string"
  | .array _ => "array"
  | .object _ => "object"

/-- One member of the body object met by the decoder: a key that selects no
field is skipped; a string is stored; `null` leaves a string field as it is;
a value of any other kind is a saved type error and the field is left as it
is.  Decoding goes on after a type error. -/
def decodeMember (st : foodieBuckRequest × Option GoError) (m : List Char × JSONValue) :
    foodieBuckRequest × Option GoError :=
  match findRequestField m.1 with
  | none => st
  | some f =>
    match m.2 with
    | .string s => (st.1.set f (String.mk s), st.2)
    | .null => st
    | v => (st.1, saveError st.2 (GoError.jsonType v.kindName))

/-- The call `json.Unmarshal(data, &fbr)` for a zero `fbr`: the request it
leaves in `fbr` and the error it returns. -/
def jsonUnmarshalRequest (data : String) (fbr : foodieBuckRequest) :
    foodieBuckRequest × Option GoError :=
  match parseJSON data.data with
  | none => (fbr, some GoError.jsonSyntax)
  | some (.object ms) => ms.foldl decodeMember (fbr, none)
  | some .null => (fbr, none)
  | some v => (fbr, some (GoError.jsonType v.kindName))

/-! ## `encoding/json`: encoding a `FoodieBuckProfile` -/

/-- The encoder's table `hex`. -/
def hexDigit (n : Nat) : Char :=
  if n < 10 then Char.ofNat ('0'.toNat + n) else Char.ofNat ('a'.toNat + (n - 10))

/-- The text the encoder writes for one character of a string (HTML escaping
is on, as it is for `json.Marshal`): quote and backslash get a backslash; line
feed, carriage return and tab their short escapes; every other control
character, `<`, `>`, `&`, U+2028 and U+2029 a `\u` escape; every other
character itself. -/
def escapeChar (c : Char) : List Char :=
  if c = '"' then ['\\', '"']
  else if c = '\\' then ['\\', '\\']
  else if c = '\n' then ['\\', 'n']
  else if c = '\r' then ['\\', 'r']
  else if c = '\t' then ['\\', 't']
  else if c.toNat < 0x20 ∨ c = '<' ∨ c = '>' ∨ c = '&' then
    ['\\', 'u', '0', '0', hexDigit (c.toNat / 16), hexDigit (c.toNat % 16)]
  else if c = Char.ofNat 0x2028 ∨ c = Char.ofNat 0x2029 then
    ['\\', 'u', '2', '0', '2', hexDigit (c.toNat % 16)]
  else [c]

/-- A Go string as a JSON string literal. -/
def encodeString (s : String) : List Char :=
  '"' :: (s.data.flatMap escapeChar ++ ['"'])

/-- A Go `int` as a JSON number: its decimal digits, with a minus sign when it
is negative. -/
def encodeInt : Int → List Char
  | Int.ofNat n => Nat.toDigits 10 n
  | Int.negSucc n => '-' :: Nat.toDigits 10 (n + 1)

/-- The text the encoder writes for one field of a struct: the quoted name, a
colon and the encoded value. -/
def encodeField (name : String) (value : List Char) : List Char :=
  '"' :: (name.data ++ '"' :: ':' :: value)

/-- The text `json.Marshal` writes for a `FoodieBuckProfile`.  The struct has
no `json` tags (main.go:28-35), so the keys are the Go field names, in
declaration order. -/
def marshalProfile (p : FoodieBuckProfile) : List Char :=
  '\x7b' :: (encodeField "PK" (encodeString p.PK) ++
    ',' :: (encodeField "SK" (encodeString p.SK) ++
    ',' :: (encodeField "Name" (encodeString p.Name) ++
    ',' :: (encodeField "Available" (encodeInt p.Available) ++
    ',' :: (encodeField "Used" (encodeInt p.Used) ++
    ',' :: (encodeField "Increment" (encodeInt p.Increment) ++ ['\x7d']))))))

/-- The call `json.Marshal(p)` for a `FoodieBuckProfile`: strings and integers
always encode, so no error is returned. -/
def jsonMarshal (p : FoodieBuckProfile) : Except GoError String :=
  .ok (String.mk (marshalProfile p))

/-! ## `strconv.ParseInt` -/

/-- The loop of `strconv.ParseUint(s, 10, 64)` over the characters left, with
the value `n` read so far: a character that is no decimal digit is a syntax
error, a value beyond 64 bits a range error, whichever comes first. -/
def parseUintLoop (s0 : String) : List Char → Nat → Except GoError Nat
  | [], n => .ok n
  | c :: cs, n =>
    if c.isDigit then
      let n1 := n * 10 + (c.toNat - '0'.toNat)
      if n1 ≥ 2 ^ 64 then .error (GoError.numRange s0) else parseUintLoop s0 cs n1
    else .error (GoError.numSyntax s0)

/-- The call `strconv.ParseInt(s, 10, 64)`. -/
def parseInt64 (s : String) : Except GoError Int :=
  match s.data with
  | [] => .error (GoError.numSyntax s)
  | c :: cs =>
    let neg : Bool := c = '-'
    let digits : List Char := if c = '+' ∨ c = '-' then cs else c :: cs
    match digits with
    | [] => .error (GoError.numSyntax s)
    | _ :: _ =>
      match parseUintLoop s digits 0 with
      | .error e => .error e
      | .ok un =>
        if !neg && un ≥ 2 ^ 63 then .error (GoError.numRange s)
        else if neg && un > 2 ^ 63 then .error (GoError.numRange s)
        else .ok (if neg then - (un : Int) else (un : Int))

/-! ## The DynamoDB `attributevalue` decoder -/

/-- The union `types.AttributeValue` of the DynamoDB SDK. -/
inductive AttributeValue where
  | B (value : List Nat)
  | BOOL (value : Bool)
  | BS (value : List (List Nat))
  | L (value : List AttributeValue)
  | M (value : List (String × AttributeValue))
  | N (value : String)
  | NS (value : List String)
  | NULL (value : Bool)
  | S (value : String)
  | SS (value : List String)

/-- A stored item, `map[string]types.AttributeValue`, as the sequence of
entries in the order in which a `range` over the map yields them.  The empty
sequence is also the `nil` map of a lookup that found nothing. -/
abbrev Item := List (String × AttributeValue)

/-- The fields of `FoodieBuckProfile`, in declaration order. -/
inductive ProfileField where
  | PK | SK | Name | Available | Used | Increment
  deriving DecidableEq, Repr

/-- The `dynamodbav` tag of a field of `FoodieBuckProfile` (main.go:29-34):
the name of the store field it is read from. -/
def ProfileField.avName : ProfileField → String
  | .PK => "pk"
  | .SK => "sk"
  | .Name => "displayName"
  | .Available => "foodieBucksAvailable"
  | .Used => "foodieBucksUsed"
  | .Increment => "foodieBuckIncrement"

/-- The fields of `FoodieBuckProfile` in the order the decoder searches
them. -/
def profileFields : List ProfileField :=
  [.PK, .SK, .Name, .Available, .Used, .Increment]

/-- The decoder's `FieldByName`: the field whose tag is the store field name,
else the first field whose tag equals it under case folding. -/
def fieldByName (name : String) : Option ProfileField :=
  match profileFields.find? (fun f => f.avName = name) with
  | some f => some f
  | none => profileFields.find? (fun f => foldName f.avName.data = foldName name.data)

/-- Store a string in a string field of the profile. -/
def FoodieBuckProfile.setString (p : FoodieBuckProfile) (f : ProfileField) (s : String) :
    FoodieBuckProfile :=
  match f with
  | .PK => { p with PK := s }
  | .SK => { p with SK := s }
  | .Name => { p with Name := s }
  | _ => p

/-- Store an integer in an integer field of the profile. -/
def FoodieBuckProfile.setInt (p : FoodieBuckProfile) (f : ProfileField) (n : Int) :
    FoodieBuckProfile :=
  match f with
  | .Available => { p with Available := n }
  | .Used => { p with Used := n }
  | .Increment => { p with Increment := n }
  | _ => p

/-- Whether the Go type of the field is `string` (else it is `int`). -/
def ProfileField.isString : ProfileField → Bool
  | .PK | .SK | .Name => true
  | _ => false

/-- The decoder's `decode` of one attribute value into one field: a string
attribute fills a string field, a number attribute fills an integer field when
`strconv.ParseInt` accepts it and a string field with its text, a null
attribute stores the zero value, and every other combination is a type
error that leaves the field as it is. -/
def decodeAttribute (p : FoodieBuckProfile) (f : ProfileField) :
    AttributeValue → Except GoError FoodieBuckProfile
  | .NULL _ => .ok (if f.isString then p.setString f "" else p.setInt f 0)
  | .S s => if f.isString then .ok (p.setString f s) else .error (GoError.avType "string")
  | .N n =>
    if f.isString then .ok (p.setString f n)
    else
      match parseInt64 n with
      | .ok i => .ok (p.setInt f i)
      | .error e => .error e
  | .B _ => .error (GoError.avType "binary")
  | .BOOL _ => .error (GoError.avType "bool")
  | .BS _ => .error (GoError.avType "binary set")
  | .L _ => .error (GoError.avType "list")
  | .M _ => .error (GoError.avType "map")
  | .NS _ => .error (GoError.avType "number set")
  | .SS _ => .error (GoError.avType "string set")

/-- The call `attributevalue.UnmarshalMap(item, &p)`: the entries of the item
are visited in order; one whose name selects a field is decoded into it, the
others are skipped; the first error ends the visit and is returned, with what
was stored before it kept. -/
def UnmarshalMap : Item → FoodieBuckProfile → FoodieBuckProfile × Option GoError
  | [], p => (p, none)
  | (name, av) :: rest, p =>
    match fieldByName name with
    | none => UnmarshalMap rest p
    | some f =>
      match decodeAttribute p f av with
      | .ok p1 => UnmarshalMap rest p1
      | .error e => (p, some e)

/-! ## The environment: SDK configuration and the store -/

/-- The input `dynamodb.GetItemInput` as far as the handler sets it. -/
structure GetItemInput where
  Key : Item
  TableName : String

/-- The output `dynamodb.GetItemOutput` as far as the handler reads it: `Item`
is empty when the table has no item under the key. -/
structure GetItemOutput where
  Item : Item

/-- The environment of one invocation: what loading the SDK configuration for
a region returns, and what the store returns for a lookup. -/
structure World where
  loadDefaultConfig : String → Option GoError
  getItem : GetItemInput → Except GoError GetItemOutput

/-- The observable effects of the handler, in the order they happen. -/
inductive Event where
  /-- The call `config.LoadDefaultConfig` with `config.WithRegion(region)`. -/
  | loadDefaultConfig (region : String)
  /-- One store lookup, `svc.GetItem`. -/
  | getItem (input : GetItemInput)
  /-- The call `log.Fatalf(format, err)`, which writes the line and exits. -/
  | logFatalf (format : String) (err : GoError)
  /-- The call `log.Printf(format, err)`. -/
  | logPrintf (format : String) (err : GoError)
  /-- The call `errorLogger.Println(err.Error())`. -/
  | errorLoggerPrintln (err : GoError)

/-- How a call of the handler ends: it returns a response and a Go error, or
the process exits with a status (`log.Fatalf` exits with 1) and nothing is
returned. -/
inductive Result where
  | returned (resp : APIGatewayV2HTTPResponse) (err : Option GoError)
  | exited (status : Nat)
  deriving DecidableEq, Repr

/-- One run of a function of the handler: its effects and how it ended. -/
structure Run where
  trace : List Event
  result : Result

/-- The store lookups among the effects of a run. -/
def Run.lookups (r : Run) : List GetItemInput :=
  r.trace.filterMap fun e =>
    match e with
    | .getItem input => some input
    | _ => none

/-! ## The handler (main.go) -/

/-- The zero value of `foodieBuckRequest`. -/
def zeroRequest : foodieBuckRequest := { PK := "", SK := "", TableName := "" }

/-- The zero value of `FoodieBuckProfile`. -/
def zeroProfile : FoodieBuckProfile :=
  { PK := "", SK := "", Name := "", Available := 0, Used := 0, Increment := 0 }

/-- The function `unmarshalAPIRequest` (main.go:42-46). -/
def unmarshalAPIRequest (r : APIGatewayV2HTTPRequest) : foodieBuckRequest × Option GoError :=
  jsonUnmarshalRequest r.Body zeroRequest

/-- The function `clientError` (main.go:49-54). -/
def clientError (sc : Int) : APIGatewayV2HTTPResponse × Option GoError :=
  ({ StatusCode := sc, Body := StatusText sc }, none)

/-- The function `serverError` (main.go:57-64): the error is written to the
error logger and a 500 response is returned. -/
def serverError (err : GoError) : Run :=
  { trace := [Event.errorLoggerPrintln err]
    result := Result.returned
      { StatusCode := StatusInternalServerError
        Body := StatusText StatusInternalServerError } none }

/-- The composite key and table name that `getProfile` passes to `GetItem`
(main.go:94-100). -/
def getItemInput (r : foodieBuckRequest) : GetItemInput :=
  { Key := [("pk", AttributeValue.S r.PK), ("sk", AttributeValue.S r.SK)]
    TableName := tableName }

/-- The function `getProfile` (main.go:81-123), with the call `json.Marshal`
as the parameter `marshal`. -/
def getProfileWith (marshal : FoodieBuckProfile → Except GoError String)
    (w : World) (r : foodieBuckRequest) : Run :=
  match w.loadDefaultConfig "us-east-2" with
  | some err =>
    { trace := [Event.loadDefaultConfig "us-east-2",
                Event.logFatalf "unable to load SDK config, %v" err]
      result := Result.exited 1 }
  | none =>
    match w.getItem (getItemInput r) with
    | .error err =>
      { trace := [Event.loadDefaultConfig "us-east-2", Event.getItem (getItemInput r),
                  Event.logFatalf "failed to get item, %v" err]
        result := Result.exited 1 }
    | .ok data =>
      let decoded := UnmarshalMap data.Item zeroProfile
      let logged : List Event :=
        match decoded.2 with
        | some err =>
          [Event.logPrintf "Couldn\x27t unmarshal response. Here\x27s why: %v\n" err]
        | none => []
      let before : List Event :=
        [Event.loadDefaultConfig "us-east-2", Event.getItem (getItemInput r)] ++ logged
      match marshal decoded.1 with
      | .error err =>
        { trace := before ++ (serverError err).trace
          result := (serverError err).result }
      | .ok json =>
        { trace := before
          result := Result.returned { StatusCode := StatusOK, Body := json } none }

/-- The function `getProfile` (main.go:81-123). -/
def getProfile (w : World) (r : foodieBuckRequest) : Run :=
  getProfileWith jsonMarshal w r

/-- The function `router` (main.go:67-78), with the call `json.Marshal` inside
`getProfile` as the parameter `marshal`.  When the body does not decode,
`clientError` is called and what it returns is dropped (main.go:69-71); the
switch on the method follows in every case. -/
def routerWith (marshal : FoodieBuckProfile → Except GoError String)
    (w : World) (r : APIGatewayV2HTTPRequest) : Run :=
  let parsed := unmarshalAPIRequest r
  let _dropped : Option (APIGatewayV2HTTPResponse × Option GoError) :=
    match parsed.2 with
    | some _ => some (clientError StatusUnprocessableEntity)
    | none => none
  if r.RequestContext.HTTP.Method = "GET" then getProfileWith marshal w parsed.1
  else
    { trace := []
      result := Result.returned (clientError StatusMethodNotAllowed).1
        (clientError StatusMethodNotAllowed).2 }

/-- The function `router` (main.go:67-78). -/
def router (w : World) (r : APIGatewayV2HTTPRequest) : Run :=
  routerWith jsonMarshal w r

/-! ## Notions used in the statements -/

/-- Two readers of values agree on every input of at most `m` characters, and
what they leave is shorter than what they get. -/
def agreeUpTo (V₁ V₂ : List Char → Option (JSONValue × List Char)) (m : Nat) : Prop :=
  ∀ cs, cs.length ≤ m →
    V₁ cs = V₂ cs ∧ ∀ v r, V₁ cs = some (v, r) → r.length < cs.length

/-- The body of a request is no JSON object: it is not well-formed JSON, or it
is a JSON value of another kind. -/
def bodyNotObject (r : APIGatewayV2HTTPRequest) : Prop :=
  ∀ ms, parseJSON r.Body.data ≠ some (JSONValue.object ms)

/-- The keys of a JSON object, in order. -/
def JSONValue.keys : JSONValue → Option (List String)
  | .object ms => some (ms.map fun m => String.mk m.1)
  | _ => none

/-- The keys of the JSON object a response body stands for. -/
def bodyKeys (body : String) : Option (List String) :=
  (parseJSON body.data).bind JSONValue.keys

/-- The JSON object that the body written for a profile stands for. -/
def profileObject (p : FoodieBuckProfile) : JSONValue :=
  JSONValue.object
    [ ("PK".data, JSONValue.string p.PK.data),
      ("SK".data, JSONValue.string p.SK.data),
      ("Name".data, JSONValue.string p.Name.data),
      ("Available".data, JSONValue.number (encodeInt p.Available)),
      ("Used".data, JSONValue.number (encodeInt p.Used)),
      ("Increment".data, JSONValue.number (encodeInt p.Increment)) ]

/-- The number a run of decimal digits stands for. -/
def digitsValue (ds : List Char) : Nat :=
  ds.foldl (fun a c => a * 10 + (c.toNat - '0'.toNat)) 0

/-- The value of a run of digits read after the value `acc`. -/
def digitsValueFrom (acc : Nat) (ds : List Char) : Nat :=
  ds.foldl (fun a c => a * 10 + (c.toNat - '0'.toNat)) acc

/-- A character that can follow a number in what the encoder writes: it is not
part of a number. -/
def endsNumber (c : Char) : Prop :=
  c.isDigit = false ∧ c ≠ '.' ∧ c ≠ 'e' ∧ c ≠ 'E'

/-- The string a profile holds in a field (the empty string for an integer
field). -/
def FoodieBuckProfile.str (p : FoodieBuckProfile) : ProfileField → String
  | .PK => p.PK
  | .SK => p.SK
  | .Name => p.Name
  | _ => ""

/-- The integer a profile holds in a field (zero for a string field). -/
def FoodieBuckProfile.int (p : FoodieBuckProfile) : ProfileField → Int
  | .Available => p.Available
  | .Used => p.Used
  | .Increment => p.Increment
  | _ => 0

/-- An attribute value of the type the field expects: a string attribute for a
string field, a number attribute that `strconv.ParseInt` accepts for an
integer field. -/
def wellTyped (f : ProfileField) (av : AttributeValue) : Prop :=
  (f.isString = true ∧ ∃ s, av = AttributeValue.S s) ∨
  (f.isString = false ∧ ∃ n i, av = AttributeValue.N n ∧ parseInt64 n = .ok i)

/-- A stored item the decoder reads field by field: its names are distinct (as
the keys of a map are), and every entry whose name selects a field carries the
tag of that field exactly (not a case variant of it) and a value of the type
of the field. -/
def Item.wellFormed (item : Item) : Prop :=
  (item.map Prod.fst).Nodup ∧
    ∀ e ∈ item, ∀ f, fieldByName e.1 = some f → e.1 = f.avName ∧ wellTyped f e.2

/-- The range of a Go `int` on a 64-bit platform. -/
def isInt64 (n : Int) : Prop :=
  -(2 ^ 63 : Int) ≤ n ∧ n < 2 ^ 63

/-- The stored item that holds the six values of a profile under the six store
field names, strings as string attributes and integers as number
attributes. -/
def profileItem (p : FoodieBuckProfile) : Item :=
  [ ("pk", .S p.PK), ("sk", .S p.SK), ("displayName", .S p.Name),
    ("foodieBucksAvailable", .N (String.mk (encodeInt p.Available))),
    ("foodieBucksUsed", .N (String.mk (encodeInt p.Used))),
    ("foodieBuckIncrement", .N (String.mk (encodeInt p.Increment))) ]

/-! ## The client side of the response body -/

/-- The six names under which a client looks for the values of a profile. -/
structure ProfileKeys where
  PK : String
  SK : String
  Name : String
  Available : String
  Used : String
  Increment : String

/-- The names the specification documents for the response body; they are the
names of the store fields. -/
def documentedKeys : ProfileKeys :=
  { PK := "pk", SK := "sk", Name := "displayName", Available := "foodieBucksAvailable",
    Used := "foodieBucksUsed", Increment := "foodieBuckIncrement" }

/-- The names of the Go fields of `FoodieBuckProfile`. -/
def goFieldKeys : ProfileKeys :=
  { PK := "PK", SK := "SK", Name := "Name", Available := "Available", Used := "Used",
    Increment := "Increment" }

/-- The integer an integer literal stands for: an optional minus sign and at
least one decimal digit. -/
def readInt : List Char → Option Int
  | [] => none
  | c :: cs =>
    if c = '-' then
      if cs ≠ [] ∧ cs.all Char.isDigit then some (-(digitsValue cs : Int)) else none
    else if (c :: cs).all Char.isDigit then some (digitsValue (c :: cs) : Int)
    else none

/-- The value of the first member of an object whose key is `name`, compared
without regard to case. -/
def memberNamed (ms : List (List Char × JSONValue)) (name : String) : Option JSONValue :=
  (ms.find? fun m => decide (foldName m.1 = foldName name.data)).map Prod.snd

/-- The string a client reads under `name`: the empty string when the object
has no such member, nothing when the member is no string. -/
def stringMember (ms : List (List Char × JSONValue)) (name : String) : Option String :=
  match memberNamed ms name with
  | none => some ""
  | some (.string s) => some (String.mk s)
  | some _ => none

/-- The integer a client reads under `name`: zero when the object has no such
member, nothing when the member is no integer literal. -/
def intMember (ms : List (List Char × JSONValue)) (name : String) : Option Int :=
  match memberNamed ms name with
  | none => some 0
  | some (.number lit) => readInt lit
  | some _ => none

/-- The client side of the specification: deserializing a response body into
a profile by looking up six names, as a lenient client does (names compared
without regard to case, a missing member read as the zero value). -/
def clientDecode (keys : ProfileKeys) (body : String) : Option FoodieBuckProfile :=
  match parseJSON body.data with
  | some (.object ms) =>
    match stringMember ms keys.PK, stringMember ms keys.SK, stringMember ms keys.Name,
      intMember ms keys.Available, intMember ms keys.Used, intMember ms keys.Increment with
    | some pk, some sk, some name, some a, some u, some i =>
      some { PK := pk, SK := sk, Name := name, Available := a, Used := u, Increment := i }
    | _, _, _, _, _, _ => none
  | _ => none

/-! ## Example environments and requests -/

/-- Whether an item carries the string attributes `pk` and `sk` with the given
values. -/
def itemHasKey (pk sk : String) (item : Item) : Bool :=
  item.any (fun e =>
    match e with
    | ("pk", .S v) => v = pk
    | _ => false) &&
  item.any (fun e =>
    match e with
    | ("sk", .S v) => v = sk
    | _ => false)

/-- An environment whose configuration loads and whose store holds `table`
under the fixed table name: a lookup returns the first item with the given
key, or no item. -/
def tableWorld (table : List Item) : World :=
  { loadDefaultConfig := fun _ => none
    getItem := fun input =>
      match input.Key with
      | [("pk", .S pk), ("sk", .S sk)] =>
        if input.TableName = tableName then
          .ok { Item := (table.find? (itemHasKey pk sk)).getD [] }
        else .error (GoError.sdk "ResourceNotFoundException")
      | _ => .error (GoError.sdk "ValidationException") }

/-- An environment in which loading the SDK configuration fails. -/
def failingConfigWorld : World :=
  { loadDefaultConfig := fun _ => some (GoError.sdk "failed to load shared config file")
    getItem := fun _ => .ok { Item := [] } }

/-- An environment in which the configuration loads and every lookup fails. -/
def failingStoreWorld : World :=
  { loadDefaultConfig := fun _ => none
    getItem := fun _ => .error (GoError.sdk "RequestError: send request failed") }

/-- A `json.Marshal` that fails on every profile. -/
def failingMarshal : FoodieBuckProfile → Except GoError String :=
  fun _ => .error (GoError.marshal "json: unsupported value")

/-- The stored item of the scenario: user 123 with 50 foodie bucks. -/
def scenarioItem : Item :=
  [ ("pk", .S "USER#123"), ("sk", .S "PROFILE#123"), ("displayName", .S "Glenn"),
    ("foodieBucksAvailable", .N "50"), ("foodieBucksUsed", .N "7"),
    ("foodieBuckIncrement", .N "5") ]

/-- The profile the scenario item maps to. -/
def scenarioProfile : FoodieBuckProfile :=
  { PK := "USER#123", SK := "PROFILE#123", Name := "Glenn",
    Available := 50, Used := 7, Increment := 5 }

/-- A found-but-empty profile: the item stored under the scenario key, with an
empty display name and zero counts.  As every stored profile it carries its
key, a `pk` that begins with `USER#` and an `sk` that begins with `PROFILE#`
(main.go:25-26). -/
def foundEmptyItem : Item :=
  [ ("pk", .S "USER#123"), ("sk", .S "PROFILE#123"), ("displayName", .S ""),
    ("foodieBucksAvailable", .N "0"), ("foodieBucksUsed", .N "0"),
    ("foodieBuckIncrement", .N "0") ]

/-- The body the handler writes for the found-but-empty profile. -/
def foundEmptyBody : String :=
  "\x7b\"PK\":\"USER#123\",\"SK\":\"PROFILE#123\",\"Name\":\"\",\"Available\":0,\"Used\":0,\"Increment\":0\x7d"

/-- A stored item for the scenario key whose `foodieBucksAvailable` is a
string attribute instead of a number. -/
def mistypedItem : Item :=
  [ ("pk", .S "USER#123"), ("sk", .S "PROFILE#123"), ("displayName", .S "Glenn"),
    ("foodieBucksAvailable", .S "50"), ("foodieBucksUsed", .N "7"),
    ("foodieBuckIncrement", .N "5") ]

/-- A profile whose strings need every kind of escape the encoder has and
whose integers include a negative one and the largest 64-bit one. -/
def escapedProfile : FoodieBuckProfile :=
  { PK := "USER#<1>&\"q\"", SK := "PROFILE#\\\n\t\r", Name := "Zoë\u2028\x01",
    Available := -42, Used := 0, Increment := 9223372036854775807 }

/-- A request with the given method and body. -/
def mkRequest (method body : String) : APIGatewayV2HTTPRequest :=
  { Body := body, RequestContext := { HTTP := { Method := method } } }

/-- The body of the scenario request. -/
def scenarioBody : String :=
  "\x7b\"pk\":\"USER#123\",\"sk\":\"PROFILE#123\",\"tableName\":\"dev.table\"\x7d"

/-- A request body that is a JSON object whose `tableName` is a number. -/
def mistypedBody : String :=
  "\x7b\"pk\":\"USER#123\",\"sk\":\"PROFILE#123\",\"tableName\":7\x7d"

/-- The request struct the scenario body decodes to. -/
def scenarioKey : foodieBuckRequest :=
  { PK := "USER#123", SK := "PROFILE#123", TableName := "dev.table" }

/-- The body that `getProfile` writes for the zero-valued profile. -/
def zeroProfileBody : String :=
  "\x7b\"PK\":\"\",\"SK\":\"\",\"Name\":\"\",\"Available\":0,\"Used\":0,\"Increment\":0\x7d"

/-- The body the handler writes for the scenario item. -/
def scenarioProfileBody : String :=
  "\x7b\"PK\":\"USER#123\",\"SK\":\"PROFILE#123\",\"Name\":\"Glenn\",\"Available\":50,\"Used\":7,\"Increment\":5\x7d"

/-! ## Basic facts about the handler -/

theorem statusText_methodNotAllowed : StatusText StatusMethodNotAllowed = "Method Not Allowed" := by
  decide

theorem statusText_internalServerError :
    StatusText StatusInternalServerError = "Internal Server Error" := by
  decide

theorem router_get (marshal : FoodieBuckProfile → Except GoError String) (w : World)
    (r : APIGatewayV2HTTPRequest) (h : r.RequestContext.HTTP.Method = "GET") :
    routerWith marshal w r = getProfileWith marshal w (unmarshalAPIRequest r).1 := by
  simp [routerWith, h]

theorem router_not_get (marshal : FoodieBuckProfile → Except GoError String) (w : World)
    (r : APIGatewayV2HTTPRequest) (h : r.RequestContext.HTTP.Method ≠ "GET") :
    routerWith marshal w r =
      { trace := []
        result := Result.returned
          { StatusCode := StatusMethodNotAllowed, Body := StatusText StatusMethodNotAllowed }
          none } := by
  simp [routerWith, h, clientError]

/-- The lookups of `getProfile` once the configuration has loaded: exactly the
one for the request's key. -/
theorem getProfileWith_lookups (marshal : FoodieBuckProfile → Except GoError String)
    (w : World) (r : foodieBuckRequest) (hc : w.loadDefaultConfig "us-east-2" = none) :
    (getProfileWith marshal w r).lookups = [getItemInput r] := by
  unfold getProfileWith
  rw [hc]
  cases hg : w.getItem (getItemInput r) with
  | error e => simp [Run.lookups]
  | ok data =>
    simp only
    cases hd : (UnmarshalMap data.Item zeroProfile).2 <;>
      cases hm : marshal (UnmarshalMap data.Item zeroProfile).1 <;>
      simp [Run.lookups, serverError]

/-- The run of `getProfile` when the configuration fails to load. -/
theorem getProfileWith_config_error (marshal : FoodieBuckProfile → Except GoError String)
    (w : World) (r : foodieBuckRequest) (e : GoError)
    (hc : w.loadDefaultConfig "us-east-2" = some e) :
    getProfileWith marshal w r =
      { trace := [Event.loadDefaultConfig "us-east-2",
                  Event.logFatalf "unable to load SDK config, %v" e]
        result := Result.exited 1 } := by
  unfold getProfileWith
  rw [hc]

/-- The run of `getProfile` when the lookup returns an error. -/
theorem getProfileWith_store_error (marshal : FoodieBuckProfile → Except GoError String)
    (w : World) (r : foodieBuckRequest) (e : GoError)
    (hc : w.loadDefaultConfig "us-east-2" = none)
    (hg : w.getItem (getItemInput r) = .error e) :
    getProfileWith marshal w r =
      { trace := [Event.loadDefaultConfig "us-east-2", Event.getItem (getItemInput r),
                  Event.logFatalf "failed to get item, %v" e]
        result := Result.exited 1 } := by
  unfold getProfileWith
  rw [hc, hg]

/-- The result of `getProfile` when the lookup succeeds: status 200 and the
encoding of the profile that the returned item decodes to. -/
theorem getProfile_result_ok (w : World) (r : foodieBuckRequest) (data : GetItemOutput)
    (hc : w.loadDefaultConfig "us-east-2" = none)
    (hg : w.getItem (getItemInput r) = .ok data) :
    (getProfile w r).result =
      Result.returned
        { StatusCode := 200
          Body := String.mk (marshalProfile (UnmarshalMap data.Item zeroProfile).1) } none := by
  unfold getProfile getProfileWith
  rw [hc, hg]
  simp [jsonMarshal, StatusOK]

/-- The decoder leaves the request untouched when the body is no object. -/
theorem unmarshalAPIRequest_not_object (r : APIGatewayV2HTTPRequest) (h : bodyNotObject r) :
    (unmarshalAPIRequest r).1 = zeroRequest := by
  unfold unmarshalAPIRequest jsonUnmarshalRequest
  cases hp : parseJSON r.Body.data with
  | none => rfl
  | some v =>
    cases v with
    | object ms => exact absurd hp (h ms)
    | _ => rfl

/-! ## The fuel of the reader is enough -/

theorem skipSpace_length_le (cs : List Char) : (skipSpace cs).length ≤ cs.length := by
  induction cs with
  | nil => simp [skipSpace]
  | cons c cs ih =>
    unfold skipSpace
    split_ifs
    · simp only [List.length_cons]; omega
    · exact Nat.le_refl _

/-- What an escape leaves is shorter than its input. -/
theorem scanEscape_length (cs : List Char) (ch : Char) (r : List Char)
    (h : scanEscape cs = some (ch, r)) : r.length < cs.length := by
  cases cs with
  | nil => simp [scanEscape] at h
  | cons e es =>
    unfold scanEscape at h
    dsimp only at h
    split_ifs at h
    · split at h
      · split at h
        · cases h
        · simp only [Option.some.injEq, Prod.mk.injEq] at h
          rw [← h.2]
          simp only [List.length_drop, List.length_cons]
          omega
      · cases h
    all_goals
      simp only [Option.some.injEq, Prod.mk.injEq] at h
      rw [← h.2]
      simp only [List.length_cons]
      omega

/-- The string scanner gives the same answer for every fuel that exceeds the
length of the input. -/
theorem scanString_fuel :
    ∀ (f₁ f₂ : Nat) (cs : List Char), cs.length < f₁ → cs.length < f₂ →
      scanString f₁ cs = scanString f₂ cs := by
  intro f₁
  induction f₁ with
  | zero => intro f₂ cs h; omega
  | succ f₁ ih =>
    intro f₂ cs h₁ h₂
    obtain ⟨g, rfl⟩ : ∃ g, f₂ = g + 1 := ⟨f₂ - 1, by omega⟩
    cases cs with
    | nil => simp [scanString]
    | cons c cs =>
      simp only [List.length_cons] at h₁ h₂
      have key : ∀ X : List Char, X.length ≤ cs.length → scanString f₁ X = scanString g X :=
        fun X hX => ih g X (by omega) (by omega)
      simp only [scanString]
      split_ifs with hq hb hctl
      · rfl
      · cases he : scanEscape cs with
        | none => rfl
        | some x =>
          obtain ⟨ch, rest⟩ := x
          have := scanEscape_length cs ch rest he
          simp only
          rw [key rest (by omega)]
      · rfl
      · rw [key cs (Nat.le_refl _)]

/-- What the string scanner leaves is shorter than its input. -/
theorem scanString_length :
    ∀ (f : Nat) (cs s r : List Char), scanString f cs = some (s, r) → r.length < cs.length := by
  intro f
  induction f with
  | zero => intro cs s r h; simp [scanString] at h
  | succ f ih =>
    intro cs s r h
    cases cs with
    | nil => simp [scanString] at h
    | cons c cs =>
      simp only [scanString] at h
      split_ifs at h with hq hb hctl
      · simp only [Option.some.injEq, Prod.mk.injEq] at h
        rw [← h.2]
        simp
      · cases he : scanEscape cs with
        | none => rw [he] at h; cases h
        | some x =>
          obtain ⟨ch, rest⟩ := x
          rw [he] at h
          have hlen := scanEscape_length cs ch rest he
          simp only [Option.map_eq_some', Prod.mk.injEq, Prod.exists] at h
          obtain ⟨s', r', hrec, _, hr⟩ := h
          have := ih _ _ _ hrec
          simp only [List.length_cons]
          rw [← hr]
          omega
      · simp only [Option.map_eq_some', Prod.mk.injEq, Prod.exists] at h
        obtain ⟨s', r', hrec, _, hr⟩ := h
        have := ih _ _ _ hrec
        simp only [List.length_cons]
        rw [← hr]
        omega

theorem scanDigits_length (cs : List Char) : (scanDigits cs).2.length ≤ cs.length := by
  induction cs with
  | nil => simp [scanDigits]
  | cons c cs ih =>
    unfold scanDigits
    split_ifs
    · simp only [List.length_cons]
      omega
    · exact Nat.le_refl _

theorem scanIntPart_length (cs ip r : List Char) (h : scanIntPart cs = some (ip, r)) :
    r.length < cs.length := by
  cases cs with
  | nil => simp [scanIntPart] at h
  | cons c cs =>
    unfold scanIntPart at h
    dsimp only at h
    split_ifs at h
    · simp only [Option.some.injEq, Prod.mk.injEq] at h
      rw [← h.2]
      simp
    · simp only [Option.some.injEq, Prod.mk.injEq] at h
      have := scanDigits_length cs
      rw [← h.2]
      simp only [List.length_cons]
      omega

theorem scanFraction_length (cs fp r : List Char) (h : scanFraction cs = some (fp, r)) :
    r.length ≤ cs.length := by
  cases cs with
  | nil =>
    simp only [scanFraction, Option.some.injEq, Prod.mk.injEq] at h
    rw [← h.2]
  | cons c cs =>
    unfold scanFraction at h
    dsimp only at h
    split_ifs at h
    · have := scanDigits_length cs
      split at h
      · cases h
      · rename_i ds r' heq
        simp only [Option.some.injEq, Prod.mk.injEq] at h
        rw [heq] at this
        rw [← h.2]
        simp only [List.length_cons]
        simp only at this
        omega
    · simp only [Option.some.injEq, Prod.mk.injEq] at h
      rw [← h.2]

theorem scanExponent_length (cs ep r : List Char) (h : scanExponent cs = some (ep, r)) :
    r.length ≤ cs.length := by
  cases cs with
  | nil =>
    simp only [scanExponent, Option.some.injEq, Prod.mk.injEq] at h
    rw [← h.2]
  | cons c cs =>
    unfold scanExponent at h
    dsimp only at h
    split_ifs at h
    · split at h
      · cases h
      · rename_i ds r' heq
        simp only [Option.some.injEq, Prod.mk.injEq] at h
        rw [← h.2]
        have hd := scanDigits_length
          (match cs with
            | s :: t => if s = '+' ∨ s = '-' then ([s], t) else ([], cs)
            | [] => ([], cs)).2
        rw [heq] at hd
        simp only at hd
        have hsign : (match cs with
            | s :: t => if s = '+' ∨ s = '-' then ([s], t) else ([], cs)
            | [] => ([], cs)).2.length ≤ cs.length := by
          cases cs with
          | nil => simp
          | cons s t =>
            simp only
            split_ifs
            · simp
            · simp
        simp only [List.length_cons]
        omega
    · simp only [Option.some.injEq, Prod.mk.injEq] at h
      rw [← h.2]

theorem scanUnsigned_length (cs lit r : List Char) (h : scanUnsigned cs = some (lit, r)) :
    r.length < cs.length := by
  unfold scanUnsigned at h
  cases h1 : scanIntPart cs with
  | none => rw [h1] at h; cases h
  | some x1 =>
    obtain ⟨ip, cs2⟩ := x1
    rw [h1] at h
    simp only at h
    cases h2 : scanFraction cs2 with
    | none => rw [h2] at h; cases h
    | some x2 =>
      obtain ⟨fp, cs3⟩ := x2
      rw [h2] at h
      simp only at h
      cases h3 : scanExponent cs3 with
      | none => rw [h3] at h; cases h
      | some x3 =>
        obtain ⟨ep, cs4⟩ := x3
        rw [h3] at h
        simp only [Option.some.injEq, Prod.mk.injEq] at h
        have a1 := scanIntPart_length _ _ _ h1
        have a2 := scanFraction_length _ _ _ h2
        have a3 := scanExponent_length _ _ _ h3
        rw [← h.2]
        omega

/-- What the number scanner leaves is shorter than its input. -/
theorem scanNumber_length (cs lit r : List Char) (h : scanNumber cs = some (lit, r)) :
    r.length < cs.length := by
  cases cs with
  | nil => simp [scanNumber] at h
  | cons c cs =>
    unfold scanNumber at h
    dsimp only at h
    split_ifs at h
    · simp only [Option.map_eq_some', Prod.mk.injEq, Prod.exists] at h
      obtain ⟨lit', r', hrec, _, hr⟩ := h
      have := scanUnsigned_length _ _ _ hrec
      rw [← hr]
      simp only [List.length_cons]
      omega
    · exact scanUnsigned_length _ _ _ h

/-- What the literal scanner leaves is shorter than its input. -/
theorem scanLiteral_length (cs : List Char) (v : JSONValue) (r : List Char)
    (h : scanLiteral cs = some (v, r)) : r.length < cs.length := by
  unfold scanLiteral at h
  split at h
  · simp only [Option.some.injEq, Prod.mk.injEq] at h
    rw [← h.2]
    simp only [List.length_cons]
    omega
  · simp only [Option.some.injEq, Prod.mk.injEq] at h
    rw [← h.2]
    simp only [List.length_cons]
    omega
  · simp only [Option.some.injEq, Prod.mk.injEq] at h
    rw [← h.2]
    simp only [List.length_cons]
    omega
  · cases h

theorem scanElements_fuel (V₁ V₂ : List Char → Option (JSONValue × List Char)) (m : Nat)
    (hA : agreeUpTo V₁ V₂ m) :
    ∀ (g₁ g₂ : Nat) (cs : List Char), cs.length ≤ m → cs.length < g₁ → cs.length < g₂ →
      scanElements V₁ g₁ cs = scanElements V₂ g₂ cs ∧
        ∀ vs r, scanElements V₁ g₁ cs = some (vs, r) → r.length < cs.length := by
  intro g₁
  induction g₁ with
  | zero => intro g₂ cs _ h; omega
  | succ g₁ ih =>
    intro g₂ cs hm h₁ h₂
    obtain ⟨g, rfl⟩ : ∃ g, g₂ = g + 1 := ⟨g₂ - 1, by omega⟩
    obtain ⟨hV, hlen⟩ := hA cs hm
    simp only [scanElements]
    rw [← hV]
    cases hv : V₁ cs with
    | none => exact ⟨rfl, fun vs r h => by cases h⟩
    | some x =>
      obtain ⟨v, r⟩ := x
      have hr := hlen v r hv
      have hsk := skipSpace_length_le r
      simp only
      cases hs : skipSpace r with
      | nil => exact ⟨rfl, fun vs r h => by cases h⟩
      | cons c r1 =>
        rw [hs] at hsk
        simp only [List.length_cons] at hsk
        simp only
        by_cases hc : c = ','
        · simp only [hc, if_true]
          obtain ⟨hrec, hreclen⟩ := ih g r1 (by omega) (by omega) (by omega)
          rw [hrec]
          refine ⟨rfl, fun vs r' h => ?_⟩
          rw [← hrec] at h
          simp only [Option.map_eq_some', Prod.mk.injEq, Prod.exists] at h
          obtain ⟨vs', r'', hh, _, hr'⟩ := h
          have := hreclen _ _ hh
          rw [← hr']
          omega
        · simp only [hc, if_false]
          by_cases hb : c = ']'
          · simp only [hb, if_true]
            refine ⟨trivial, fun vs r' h => ?_⟩
            simp only [Option.some.injEq, Prod.mk.injEq] at h
            rw [← h.2]
            omega
          · simp only [hb, if_false]
            exact ⟨trivial, fun vs r h => by cases h⟩

theorem scanMembers_fuel (V₁ V₂ : List Char → Option (JSONValue × List Char)) (m : Nat)
    (hA : agreeUpTo V₁ V₂ m) :
    ∀ (g₁ g₂ : Nat) (cs : List Char), cs.length ≤ m → cs.length < g₁ → cs.length < g₂ →
      scanMembers V₁ g₁ cs = scanMembers V₂ g₂ cs ∧
        ∀ ms r, scanMembers V₁ g₁ cs = some (ms, r) → r.length < cs.length := by
  intro g₁
  induction g₁ with
  | zero => intro g₂ cs _ h; omega
  | succ g₁ ih =>
    intro g₂ cs hm h₁ h₂
    obtain ⟨g, rfl⟩ : ∃ g, g₂ = g + 1 := ⟨g₂ - 1, by omega⟩
    cases cs with
    | nil => exact ⟨rfl, fun ms r h => by simp [scanMembers] at h⟩
    | cons c r =>
      simp only [List.length_cons] at hm h₁ h₂
      simp only [scanMembers]
      by_cases hq : c = '"'
      · simp only [hq, if_true]
        cases hk : scanString (r.length + 1) r with
        | none => exact ⟨rfl, fun ms r h => by cases h⟩
        | some x =>
          obtain ⟨key, r1⟩ := x
          have hr1 := scanString_length _ _ _ _ hk
          have hsk1 := skipSpace_length_le r1
          simp only
          cases hs1 : skipSpace r1 with
          | nil => exact ⟨rfl, fun ms r h => by cases h⟩
          | cons c1 r2 =>
            rw [hs1] at hsk1
            simp only [List.length_cons] at hsk1
            simp only
            by_cases hcol : c1 = ':'
            · simp only [hcol, if_true]
              obtain ⟨hV, hlen⟩ := hA r2 (by omega)
              rw [← hV]
              cases hv : V₁ r2 with
              | none => exact ⟨rfl, fun ms r h => by cases h⟩
              | some y =>
                obtain ⟨v, r3⟩ := y
                have hr3 := hlen v r3 hv
                have hsk3 := skipSpace_length_le r3
                simp only
                cases hs3 : skipSpace r3 with
                | nil => exact ⟨rfl, fun ms r h => by cases h⟩
                | cons c2 r4 =>
                  rw [hs3] at hsk3
                  simp only [List.length_cons] at hsk3
                  have hsk4 := skipSpace_length_le r4
                  simp only
                  by_cases hc : c2 = ','
                  · simp only [hc, if_true]
                    obtain ⟨hrec, hreclen⟩ :=
                      ih g (skipSpace r4) (by omega) (by omega) (by omega)
                    rw [hrec]
                    refine ⟨rfl, fun ms r' h => ?_⟩
                    rw [← hrec] at h
                    simp only [Option.map_eq_some', Prod.mk.injEq, Prod.exists] at h
                    obtain ⟨ms', r'', hh, _, hr'⟩ := h
                    have := hreclen _ _ hh
                    rw [← hr']
                    simp only [List.length_cons]
                    omega
                  · simp only [hc, if_false]
                    by_cases hb : c2 = '\x7d'
                    · simp only [hb, if_true]
                      refine ⟨trivial, fun ms r' h => ?_⟩
                      simp only [Option.some.injEq, Prod.mk.injEq] at h
                      rw [← h.2]
                      simp only [List.length_cons]
                      omega
                    · simp only [hb, if_false]
                      exact ⟨trivial, fun ms r h => by cases h⟩
            · simp only [hcol, if_false]
              exact ⟨trivial, fun ms r h => by cases h⟩
      · simp only [hq, if_false]
        exact ⟨trivial, fun ms r h => by cases h⟩

/-- The reader of values gives the same answer for every fuel that exceeds the
length of the input, and what it leaves is shorter than its input. -/
theorem scanValue_fuel :
    ∀ (m f₁ f₂ d : Nat) (cs : List Char), cs.length ≤ m → m < f₁ → m < f₂ →
      scanValue f₁ d cs = scanValue f₂ d cs ∧
        ∀ v r, scanValue f₁ d cs = some (v, r) → r.length < cs.length := by
  intro m
  induction m with
  | zero =>
    intro f₁ f₂ d cs hm h₁ h₂
    obtain ⟨a, rfl⟩ : ∃ a, f₁ = a + 1 := ⟨f₁ - 1, by omega⟩
    obtain ⟨b, rfl⟩ : ∃ b, f₂ = b + 1 := ⟨f₂ - 1, by omega⟩
    have hnil : cs = [] := List.length_eq_zero.mp (by omega)
    subst hnil
    simp only [scanValue, skipSpace]
    exact ⟨trivial, fun v r h => by cases h⟩
  | succ m ih =>
    intro f₁ f₂ d cs hm h₁ h₂
    obtain ⟨a, rfl⟩ : ∃ a, f₁ = a + 1 := ⟨f₁ - 1, by omega⟩
    obtain ⟨b, rfl⟩ : ∃ b, f₂ = b + 1 := ⟨f₂ - 1, by omega⟩
    have hA : agreeUpTo (scanValue a (d + 1)) (scanValue b (d + 1)) m :=
      fun cs' hcs' => ih a b (d + 1) cs' hcs' (by omega) (by omega)
    have hsk := skipSpace_length_le cs
    simp only [scanValue]
    cases hs : skipSpace cs with
    | nil => exact ⟨rfl, fun v r h => by cases h⟩
    | cons c r =>
      rw [hs] at hsk
      simp only [List.length_cons] at hsk
      have hsk2 := skipSpace_length_le r
      simp only
      by_cases hobj : c = '\x7b'
      · simp only [hobj, if_true]
        by_cases hdepth : d + 1 > maxNestingDepth
        · simp only [hdepth, if_true]
          exact ⟨trivial, fun v r h => by cases h⟩
        · simp only [hdepth, if_false]
          cases hs2 : skipSpace r with
          | nil => exact ⟨rfl, fun v r h => by cases h⟩
          | cons c1 r1 =>
            rw [hs2] at hsk2
            simp only [List.length_cons] at hsk2
            simp only
            by_cases hclose : c1 = '\x7d'
            · simp only [hclose, if_true]
              refine ⟨trivial, fun v r' h => ?_⟩
              simp only [Option.some.injEq, Prod.mk.injEq] at h
              rw [← h.2]
              omega
            · simp only [hclose, if_false]
              obtain ⟨hrec, hreclen⟩ := scanMembers_fuel _ _ m hA a b (c1 :: r1)
                (by simp only [List.length_cons]; omega)
                (by simp only [List.length_cons]; omega)
                (by simp only [List.length_cons]; omega)
              rw [hrec]
              refine ⟨rfl, fun v r' h => ?_⟩
              rw [← hrec] at h
              simp only [Option.map_eq_some', Prod.mk.injEq, Prod.exists] at h
              obtain ⟨ms, r'', hh, _, hr'⟩ := h
              have := hreclen _ _ hh
              simp only [List.length_cons] at this
              rw [← hr']
              omega
      · simp only [hobj, if_false]
        by_cases harr : c = '['
        · simp only [harr, if_true]
          by_cases hdepth : d + 1 > maxNestingDepth
          · simp only [hdepth, if_true]
            exact ⟨trivial, fun v r h => by cases h⟩
          · simp only [hdepth, if_false]
            cases hs2 : skipSpace r with
            | nil => exact ⟨rfl, fun v r h => by cases h⟩
            | cons c1 r1 =>
              rw [hs2] at hsk2
              simp only [List.length_cons] at hsk2
              simp only
              by_cases hclose : c1 = ']'
              · simp only [hclose, if_true]
                refine ⟨trivial, fun v r' h => ?_⟩
                simp only [Option.some.injEq, Prod.mk.injEq] at h
                rw [← h.2]
                omega
              · simp only [hclose, if_false]
                obtain ⟨hrec, hreclen⟩ := scanElements_fuel _ _ m hA a b (c1 :: r1)
                  (by simp only [List.length_cons]; omega)
                  (by simp only [List.length_cons]; omega)
                  (by simp only [List.length_cons]; omega)
                rw [hrec]
                refine ⟨rfl, fun v r' h => ?_⟩
                rw [← hrec] at h
                simp only [Option.map_eq_some', Prod.mk.injEq, Prod.exists] at h
                obtain ⟨vs, r'', hh, _, hr'⟩ := h
                have := hreclen _ _ hh
                simp only [List.length_cons] at this
                rw [← hr']
                omega
        · simp only [harr, if_false]
          by_cases hq : c = '"'
          · simp only [hq, if_true]
            refine ⟨trivial, fun v r' h => ?_⟩
            simp only [Option.map_eq_some', Prod.mk.injEq, Prod.exists] at h
            obtain ⟨s', r'', hh, _, hr'⟩ := h
            have := scanString_length _ _ _ _ hh
            rw [← hr']
            omega
          · simp only [hq, if_false]
            by_cases hnum : c = '-' ∨ c.isDigit = true
            · simp only [hnum, if_true]
              refine ⟨trivial, fun v r' h => ?_⟩
              simp only [Option.map_eq_some', Prod.mk.injEq, Prod.exists] at h
              obtain ⟨lit, r'', hh, _, hr'⟩ := h
              have := scanNumber_length _ _ _ hh
              simp only [List.length_cons] at this
              rw [← hr']
              omega
            · simp only [hnum, if_false]
              refine ⟨trivial, fun v r' h => ?_⟩
              have := scanLiteral_length _ _ _ h
              simp only [List.length_cons] at this
              omega

/-- The fuel of `parseJSON` is enough: every larger fuel gives the same
answer, so no input is refused for want of fuel. -/
theorem parseJSON_fuel (data : List Char) (fuel : Nat) (h : data.length < fuel) :
    (match scanValue fuel 0 data with
      | none => none
      | some (v, r) => if skipSpace r = [] then some v else none) = parseJSON data := by
  unfold parseJSON
  rw [(scanValue_fuel data.length fuel (data.length + 1) 0 data (Nat.le_refl _) h
    (Nat.lt_succ_self _)).1]

/-! ## Reading back what the encoder writes: strings -/

theorem hexVal_hexDigit : ∀ n, n < 16 → hexVal (hexDigit n) = some n := by
  decide

theorem hex4_hexDigit (a b c d : Nat) (ha : a < 16) (hb : b < 16) (hc : c < 16)
    (hd : d < 16) :
    hex4 (hexDigit a) (hexDigit b) (hexDigit c) (hexDigit d) =
      some (((a * 16 + b) * 16 + c) * 16 + d) := by
  simp only [hex4, hexVal_hexDigit a ha, hexVal_hexDigit b hb, hexVal_hexDigit c hc,
    hexVal_hexDigit d hd]

theorem decodeEscapedUnit_below_surrogates (n : Nat) (rest : List Char) (h : n < 0xD800) :
    decodeEscapedUnit n rest = (Char.ofNat n, 0) := by
  unfold decodeEscapedUnit
  rw [if_neg]
  omega

/-- One `\u` escape of a code unit below the surrogates is read as its
character. -/
theorem scanString_unicode_escape (fuel a b c d : Nat) (tail : List Char)
    (ha : a < 16) (hb : b < 16) (hc : c < 16) (hd : d < 16)
    (hv : ((a * 16 + b) * 16 + c) * 16 + d < 0xD800) :
    scanString (fuel + 1)
        ('\\' :: 'u' :: hexDigit a :: hexDigit b :: hexDigit c :: hexDigit d :: tail) =
      (scanString fuel tail).map
        fun x => (Char.ofNat (((a * 16 + b) * 16 + c) * 16 + d) :: x.1, x.2) := by
  have h1 : ('\\' : Char) ≠ '"' := by decide
  simp only [scanString, scanEscape, h1, if_false, if_true, hex4_hexDigit a b c d ha hb hc hd,
    decodeEscapedUnit_below_surrogates _ _ hv, List.drop_zero]

/-- What the encoder writes for one character is read back as that
character. -/
theorem scanString_escapeChar (fuel : Nat) (c : Char) (tail : List Char) :
    scanString (fuel + 1) (escapeChar c ++ tail) =
      (scanString fuel tail).map fun x => (c :: x.1, x.2) := by
  unfold escapeChar
  split_ifs with h1 h2 h3 h4 h5 h6 h7
  · subst h1; rfl
  · subst h2; rfl
  · subst h3; rfl
  · subst h4; rfl
  · subst h5; rfl
  · have hlt : c.toNat < 256 := by
      rcases h6 with h | h | h | h
      · omega
      · subst h; decide
      · subst h; decide
      · subst h; decide
    have hq : c.toNat / 16 < 16 := by omega
    have hr : c.toNat % 16 < 16 := by omega
    have hv : ((0 * 16 + 0) * 16 + c.toNat / 16) * 16 + c.toNat % 16 = c.toNat := by omega
    have := scanString_unicode_escape fuel 0 0 (c.toNat / 16) (c.toNat % 16) tail
      (by decide) (by decide) hq hr (by omega)
    rw [hv, Char.ofNat_toNat] at this
    exact this
  · have hv : ((2 * 16 + 0) * 16 + 2) * 16 + c.toNat % 16 = c.toNat := by
      rcases h7 with h | h <;> subst h <;> decide
    have := scanString_unicode_escape fuel 2 0 2 (c.toNat % 16) tail
      (by decide) (by decide) (by decide) (by omega) (by omega)
    rw [hv, Char.ofNat_toNat] at this
    exact this
  · have hctl : ¬ c.toNat < 0x20 := fun h => h6 (Or.inl h)
    simp only [List.singleton_append, scanString, h1, h2, hctl, if_false]
    rfl

/-- The escaped text of a string, followed by a quote, is read back as the
string; the fuel only has to exceed the length of the string. -/
theorem scanString_escape (s rest : List Char) :
    ∀ fuel, s.length < fuel →
      scanString fuel (s.flatMap escapeChar ++ '"' :: rest) = some (s, rest) := by
  induction s with
  | nil =>
    intro fuel h
    obtain ⟨k, rfl⟩ : ∃ k, fuel = k + 1 := ⟨fuel - 1, by simp at h; omega⟩
    simp [scanString]
  | cons c s ih =>
    intro fuel h
    obtain ⟨k, rfl⟩ : ∃ k, fuel = k + 1 := ⟨fuel - 1, by simp at h; omega⟩
    rw [List.flatMap_cons, List.append_assoc, scanString_escapeChar,
      ih k (by simpa using h)]
    rfl

theorem length_le_flatMap_escapeChar (s : List Char) :
    s.length ≤ (s.flatMap escapeChar).length := by
  induction s with
  | nil => simp
  | cons c s ih =>
    have hc : 1 ≤ (escapeChar c).length := by
      unfold escapeChar
      split_ifs <;> simp
    simp only [List.flatMap_cons, List.length_append, List.length_cons]
    omega

/-! ## Reading back what the encoder writes: integers -/

theorem digitChar_isDigit : ∀ k, k < 10 → (Nat.digitChar k).isDigit = true := by
  decide

theorem digitChar_value : ∀ k, k < 10 → (Nat.digitChar k).toNat - '0'.toNat = k := by
  decide

theorem digitChar_ne_zero : ∀ k, k < 10 → 0 < k → Nat.digitChar k ≠ '0' := by
  decide

theorem digitsValue_append_singleton (ds : List Char) (c : Char) :
    digitsValue (ds ++ [c]) = digitsValue ds * 10 + (c.toNat - '0'.toNat) := by
  simp [digitsValue, List.foldl_append]

/-- The digits `Nat.toDigitsCore` puts in front of its accumulator for a
positive number: decimal digits without a leading zero that stand for the
number. -/
theorem toDigitsCore_spec :
    ∀ (fuel n : Nat) (acc : List Char), 0 < n → n < fuel →
      ∃ d ds, Nat.toDigitsCore 10 fuel n acc = d :: ds ++ acc ∧ d ≠ '0' ∧
        d.isDigit = true ∧ (∀ c ∈ ds, c.isDigit = true) ∧ digitsValue (d :: ds) = n := by
  intro fuel
  induction fuel with
  | zero => intro n acc _ h; omega
  | succ fuel ih =>
    intro n acc hpos hlt
    have hmod : n % 10 < 10 := Nat.mod_lt _ (by decide)
    by_cases hq : n / 10 = 0
    · have hn : n % 10 = n := by omega
      refine ⟨Nat.digitChar (n % 10), [], ?_, ?_, digitChar_isDigit _ hmod, ?_, ?_⟩
      · simp [Nat.toDigitsCore, hq]
      · exact digitChar_ne_zero _ hmod (by omega)
      · intro c hc; cases hc
      · have hv := digitChar_value _ hmod
        simp only [digitsValue, List.foldl, Nat.zero_mul, Nat.zero_add]
        rw [hv, hn]
    · obtain ⟨d, ds, heq, hd0, hd, hds, hval⟩ :=
        ih (n / 10) (Nat.digitChar (n % 10) :: acc) (by omega) (by omega)
      refine ⟨d, ds ++ [Nat.digitChar (n % 10)], ?_, hd0, hd, ?_, ?_⟩
      · simp [Nat.toDigitsCore, hq, heq]
      · intro c hc
        rcases List.mem_append.mp hc with h | h
        · exact hds c h
        · rw [List.mem_singleton.mp h]; exact digitChar_isDigit _ hmod
      · have : d :: (ds ++ [Nat.digitChar (n % 10)]) = (d :: ds) ++ [Nat.digitChar (n % 10)] :=
          rfl
        rw [this, digitsValue_append_singleton, hval, digitChar_value _ hmod]
        omega

/-- The decimal digits of a number as the encoder writes them: at least one
digit, only digits, a leading zero only for zero itself, and they stand for
the number. -/
theorem toDigits_spec (n : Nat) :
    ∃ d ds, Nat.toDigits 10 n = d :: ds ∧ d.isDigit = true ∧
      (∀ c ∈ ds, c.isDigit = true) ∧ (d = '0' → ds = []) ∧ digitsValue (d :: ds) = n := by
  by_cases hn : n = 0
  · subst hn
    exact ⟨'0', [], rfl, rfl, fun c hc => absurd hc (List.not_mem_nil c), fun _ => rfl, rfl⟩
  · obtain ⟨d, ds, heq, hd0, hd, hds, hval⟩ :=
      toDigitsCore_spec (n + 1) n [] (by omega) (by omega)
    refine ⟨d, ds, ?_, hd, hds, fun h => absurd h hd0, hval⟩
    simpa [Nat.toDigits] using heq

theorem scanDigits_append (ds : List Char) (c : Char) (rest : List Char)
    (hds : ∀ x ∈ ds, x.isDigit = true) (hc : c.isDigit = false) :
    scanDigits (ds ++ c :: rest) = (ds, c :: rest) := by
  induction ds with
  | nil => simp [scanDigits, hc]
  | cons d ds ih =>
    have hd : d.isDigit = true := hds d (List.mem_cons_self _ _)
    have := ih (fun x hx => hds x (List.mem_cons_of_mem _ hx))
    simp [scanDigits, hd, this]

theorem scanUnsigned_toDigits (n : Nat) (c : Char) (rest : List Char) (hc : endsNumber c) :
    scanUnsigned (Nat.toDigits 10 n ++ c :: rest) = some (Nat.toDigits 10 n, c :: rest) := by
  obtain ⟨d, ds, heq, hd, hds, hzero, _⟩ := toDigits_spec n
  obtain ⟨hc1, hc2, hc3, hc4⟩ := hc
  have hfrac : scanFraction (c :: rest) = some ([], c :: rest) := by
    simp [scanFraction, hc2]
  have hexp : scanExponent (c :: rest) = some ([], c :: rest) := by
    simp [scanExponent, hc3, hc4]
  rw [heq]
  by_cases h0 : d = '0'
  · have hnil := hzero h0
    subst hnil
    subst h0
    simp [scanUnsigned, scanIntPart, hfrac, hexp]
  · have hsd := scanDigits_append ds c rest hds hc1
    simp [scanUnsigned, scanIntPart, h0, hd, hsd, hfrac, hexp]

theorem scanNumber_encodeInt (n : Int) (c : Char) (rest : List Char) (hc : endsNumber c) :
    scanNumber (encodeInt n ++ c :: rest) = some (encodeInt n, c :: rest) := by
  cases n with
  | ofNat k =>
    obtain ⟨d, ds, heq, hd, _, _, _⟩ := toDigits_spec k
    have hminus : d ≠ '-' := fun h => by subst h; exact absurd hd (by decide)
    have := scanUnsigned_toDigits k c rest hc
    simp only [encodeInt]
    rw [heq] at this ⊢
    simp only [List.cons_append, scanNumber, hminus, if_false]
    exact this
  | negSucc k =>
    have := scanUnsigned_toDigits (k + 1) c rest hc
    simp [encodeInt, scanNumber, this]

/-- The first character of an encoded integer is a minus sign or a digit. -/
theorem encodeInt_head (n : Int) :
    ∃ h t, encodeInt n = h :: t ∧ (h = '-' ∨ h.isDigit = true) := by
  cases n with
  | ofNat k =>
    obtain ⟨d, ds, heq, hd, _, _, _⟩ := toDigits_spec k
    exact ⟨d, ds, by simp [encodeInt, heq], Or.inr hd⟩
  | negSucc k => exact ⟨'-', Nat.toDigits 10 (k + 1), rfl, Or.inl rfl⟩

theorem digitsValueFrom_ge (ds : List Char) : ∀ acc, acc ≤ digitsValueFrom acc ds := by
  induction ds with
  | nil => intro acc; exact Nat.le_refl _
  | cons c ds ih =>
    intro acc
    have := ih (acc * 10 + (c.toNat - '0'.toNat))
    simp only [digitsValueFrom, List.foldl_cons] at this ⊢
    omega

/-- The loop of `strconv.ParseUint` over a run of digits whose value fits 64
bits returns that value. -/
theorem parseUintLoop_digits (s0 : String) (ds : List Char) :
    ∀ acc, (∀ c ∈ ds, c.isDigit = true) → digitsValueFrom acc ds < 2 ^ 64 →
      parseUintLoop s0 ds acc = .ok (digitsValueFrom acc ds) := by
  induction ds with
  | nil => intro acc _ _; rfl
  | cons c ds ih =>
    intro acc hds hlt
    have hc : c.isDigit = true := hds c (List.mem_cons_self _ _)
    have hrest : ∀ x ∈ ds, x.isDigit = true := fun x hx => hds x (List.mem_cons_of_mem _ hx)
    have hstep : digitsValueFrom acc (c :: ds) =
        digitsValueFrom (acc * 10 + (c.toNat - '0'.toNat)) ds := rfl
    rw [hstep] at hlt ⊢
    have hge := digitsValueFrom_ge ds (acc * 10 + (c.toNat - '0'.toNat))
    have hsmall : ¬ (acc * 10 + (c.toNat - '0'.toNat) ≥ 2 ^ 64) := by omega
    simp only [parseUintLoop, hc, if_true, hsmall, if_false]
    exact ih _ hrest hlt

/-- The call `strconv.ParseInt` reads back every 64-bit integer from the text
the encoder writes for it. -/
theorem parseInt64_encodeInt (n : Int) (hlo : -(2 ^ 63 : Int) ≤ n) (hhi : n < 2 ^ 63) :
    parseInt64 (String.mk (encodeInt n)) = .ok n := by
  cases n with
  | ofNat k =>
    obtain ⟨d, ds, heq, hd, hds, _, hval⟩ := toDigits_spec k
    have hplus : d ≠ '+' := fun h => by subst h; exact absurd hd (by decide)
    have hminus : d ≠ '-' := fun h => by subst h; exact absurd hd (by decide)
    have hk : k < 2 ^ 63 := by
      have : (k : Int) < 2 ^ 63 := hhi
      exact_mod_cast this
    have hall : ∀ c ∈ d :: ds, c.isDigit = true := by
      intro c hc
      rcases List.mem_cons.mp hc with h | h
      · rw [h]; exact hd
      · exact hds c h
    have hv : digitsValueFrom 0 (d :: ds) = k := hval
    have hloop := parseUintLoop_digits (String.mk (d :: ds)) (d :: ds) 0 hall (by rw [hv]; omega)
    rw [hv] at hloop
    have hnot : ¬ (k ≥ 2 ^ 63) := by omega
    simp only [encodeInt, heq, parseInt64, hplus, hminus, or_self, if_false, hloop,
      decide_False, Bool.not_false, Bool.true_and, decide_eq_true_eq, hnot, Bool.false_and,
      Bool.false_eq_true]
    rfl
  | negSucc k =>
    obtain ⟨d, ds, heq, hd, hds, _, hval⟩ := toDigits_spec (k + 1)
    have hk : k + 1 ≤ 2 ^ 63 := by
      have h1 : -(2 ^ 63 : Int) ≤ -((k : Int) + 1) := by
        rw [Int.negSucc_eq] at hlo
        exact hlo
      have h2 : ((k : Int) + 1) ≤ 2 ^ 63 := by omega
      exact_mod_cast h2
    have hall : ∀ c ∈ d :: ds, c.isDigit = true := by
      intro c hc
      rcases List.mem_cons.mp hc with h | h
      · rw [h]; exact hd
      · exact hds c h
    have hv : digitsValueFrom 0 (d :: ds) = k + 1 := hval
    have hloop := parseUintLoop_digits (String.mk ('-' :: d :: ds)) (d :: ds) 0 hall
      (by rw [hv]; omega)
    rw [hv] at hloop
    have hnot : ¬ (k + 1 > 2 ^ 63) := by omega
    simp only [encodeInt, heq, parseInt64, true_or, or_true, if_true, hloop, decide_True,
      Bool.not_true, Bool.false_and, Bool.true_and, decide_eq_true_eq, hnot, if_false,
      Bool.false_eq_true]
    rw [Int.negSucc_eq]
    simp

/-! ## Reading back what the encoder writes: the whole body -/

theorem skipSpace_cons (c : Char) (cs : List Char) (h : isSpace c = false) :
    skipSpace (c :: cs) = c :: cs := by
  simp [skipSpace, h]

theorem scanValue_quote (fuel depth : Nat) (r : List Char) :
    scanValue (fuel + 1) depth ('"' :: r) =
      (scanString (r.length + 1) r).map fun x => (JSONValue.string x.1, x.2) := by
  have h1 : ('"' : Char) ≠ '\x7b' := by decide
  have h2 : ('"' : Char) ≠ '[' := by decide
  rw [scanValue, skipSpace_cons _ _ (by decide)]
  simp only [h1, h2, if_false, if_true]

theorem scanValue_number (fuel depth : Nat) (c : Char) (r : List Char)
    (h : c = '-' ∨ c.isDigit = true) :
    scanValue (fuel + 1) depth (c :: r) =
      (scanNumber (c :: r)).map fun x => (JSONValue.number x.1, x.2) := by
  have hsp : isSpace c = false := by
    rcases h with hh | hh
    · subst hh; decide
    · cases hs : isSpace c with
      | false => rfl
      | true =>
        simp only [isSpace, Bool.or_eq_true, decide_eq_true_eq] at hs
        rcases hs with ((hs | hs) | hs) | hs <;> subst hs <;> exact absurd hh (by decide)
  have h1 : c ≠ '\x7b' := by
    rcases h with hh | hh
    · subst hh; decide
    · intro he; subst he; exact absurd hh (by decide)
  have h2 : c ≠ '[' := by
    rcases h with hh | hh
    · subst hh; decide
    · intro he; subst he; exact absurd hh (by decide)
  have h3 : c ≠ '"' := by
    rcases h with hh | hh
    · subst hh; decide
    · intro he; subst he; exact absurd hh (by decide)
  rw [scanValue, skipSpace_cons _ _ hsp]
  simp only [h1, h2, h3, h, if_false, if_true]

theorem scanValue_encodeString (fuel depth : Nat) (s : String) (rest : List Char) :
    scanValue (fuel + 1) depth (encodeString s ++ rest) =
      some (JSONValue.string s.data, rest) := by
  have hlen : s.data.length <
      (s.data.flatMap escapeChar ++ '"' :: rest).length + 1 := by
    have := length_le_flatMap_escapeChar s.data
    simp only [List.length_append, List.length_cons]
    omega
  have hscan := scanString_escape s.data rest _ hlen
  have hin : encodeString s ++ rest = '"' :: (s.data.flatMap escapeChar ++ '"' :: rest) := by
    simp [encodeString]
  rw [hin, scanValue_quote, hscan]
  rfl

theorem scanValue_encodeInt (fuel depth : Nat) (n : Int) (c : Char) (rest : List Char)
    (hc : endsNumber c) :
    scanValue (fuel + 1) depth (encodeInt n ++ c :: rest) =
      some (JSONValue.number (encodeInt n), c :: rest) := by
  have hnum := scanNumber_encodeInt n c rest hc
  obtain ⟨h, t, heq, hhead⟩ := encodeInt_head n
  rw [heq] at hnum ⊢
  rw [List.cons_append] at hnum ⊢
  rw [scanValue_number fuel depth h _ hhead, hnum]
  rfl

/-- One member of an object as the encoder writes it (a name that needs no
escaping, a colon, the value) is read as that member; what follows decides
whether more members come. -/
theorem scanMembers_encodeField (value : List Char → Option (JSONValue × List Char))
    (fuel : Nat) (name : String) (text : List Char) (v : JSONValue) (c : Char)
    (more : List Char)
    (hname : name.data.flatMap escapeChar = name.data)
    (hv : value (text ++ c :: more) = some (v, c :: more))
    (hsp : isSpace c = false) :
    scanMembers value (fuel + 1) (encodeField name text ++ c :: more) =
      if c = ',' then
        (scanMembers value fuel (skipSpace more)).map fun x => ((name.data, v) :: x.1, x.2)
      else if c = '\x7d' then some ([(name.data, v)], more)
      else none := by
  have hlen : name.data.length <
      (name.data ++ '"' :: ':' :: (text ++ c :: more)).length + 1 := by
    simp only [List.length_append, List.length_cons]
    omega
  have hscan := scanString_escape name.data (':' :: (text ++ c :: more))
    ((name.data ++ '"' :: ':' :: (text ++ c :: more)).length + 1) hlen
  rw [hname] at hscan
  have hin : encodeField name text ++ c :: more =
      '"' :: (name.data ++ '"' :: ':' :: (text ++ c :: more)) := by
    simp [encodeField]
  rw [hin, scanMembers]
  simp only [if_true, hscan, skipSpace_cons ':' _ (by decide), hv, skipSpace_cons c _ hsp]

theorem endsNumber_comma : endsNumber ',' := by
  refine ⟨by decide, by decide, by decide, by decide⟩

theorem endsNumber_brace : endsNumber '\x7d' := by
  refine ⟨by decide, by decide, by decide, by decide⟩

theorem marshalProfile_length (p : FoodieBuckProfile) : 6 ≤ (marshalProfile p).length := by
  simp only [marshalProfile, encodeField, List.length_cons, List.length_append]
  omega

/-- The body written for a profile is well-formed JSON: the object whose keys
are the six Go field names, in order, with the values of the profile. -/
theorem parseJSON_marshalProfile (p : FoodieBuckProfile) :
    parseJSON (marshalProfile p) = some (profileObject p) := by
  obtain ⟨k, hk⟩ : ∃ k, (marshalProfile p).length = k + 6 :=
    ⟨(marshalProfile p).length - 6, by have := marshalProfile_length p; omega⟩
  have hq : ('"' : Char) ≠ '\x7d' := by decide
  have hdepth : ¬ (0 + 1 > maxNestingDepth) := by decide
  have hsp : isSpace ',' = false := by decide
  have hsb : isSpace '\x7d' = false := by decide
  have hVs : ∀ (s : String) (rest : List Char),
      scanValue (k + 6) (0 + 1) (encodeString s ++ rest) =
        some (JSONValue.string s.data, rest) :=
    fun s rest => scanValue_encodeString (k + 5) (0 + 1) s rest
  have hVi : ∀ (n : Int) (c : Char) (rest : List Char), endsNumber c →
      scanValue (k + 6) (0 + 1) (encodeInt n ++ c :: rest) =
        some (JSONValue.number (encodeInt n), c :: rest) :=
    fun n c rest hc => scanValue_encodeInt (k + 5) (0 + 1) n c rest hc
  have hfield : ∀ (name : String) (text more : List Char),
      skipSpace (encodeField name text ++ more) = encodeField name text ++ more := by
    intro name text more
    simp only [encodeField, List.cons_append]
    exact skipSpace_cons _ _ (by decide)
  have hcons : ∀ (name : String) (text more : List Char),
      encodeField name text ++ more = '"' :: (name.data ++ '"' :: ':' :: (text ++ more)) := by
    intro name text more
    simp [encodeField]
  unfold parseJSON
  rw [hk]
  unfold marshalProfile
  rw [scanValue, skipSpace_cons _ _ (by decide)]
  simp only [if_true, hdepth, if_false]
  rw [hfield, hcons "PK"]
  simp only [hq, if_false]
  rw [← hcons "PK"]
  generalize scanValue (k + 6) (0 + 1) = V at hVs hVi ⊢
  rw [show k + 6 = k + 5 + 1 from rfl,
    scanMembers_encodeField V (k + 5) "PK" _ _ ',' _ (by decide) (hVs p.PK _) hsp,
    if_pos rfl, hfield,
    show k + 5 = k + 4 + 1 from rfl,
    scanMembers_encodeField V (k + 4) "SK" _ _ ',' _ (by decide) (hVs p.SK _) hsp,
    if_pos rfl, hfield,
    show k + 4 = k + 3 + 1 from rfl,
    scanMembers_encodeField V (k + 3) "Name" _ _ ',' _ (by decide) (hVs p.Name _) hsp,
    if_pos rfl, hfield,
    show k + 3 = k + 2 + 1 from rfl,
    scanMembers_encodeField V (k + 2) "Available" _ _ ',' _ (by decide)
      (hVi p.Available ',' _ endsNumber_comma) hsp,
    if_pos rfl, hfield,
    show k + 2 = k + 1 + 1 from rfl,
    scanMembers_encodeField V (k + 1) "Used" _ _ ',' _ (by decide)
      (hVi p.Used ',' _ endsNumber_comma) hsp,
    if_pos rfl, hfield,
    show k + 1 = k + 0 + 1 from rfl,
    scanMembers_encodeField V (k + 0) "Increment" _ _ '\x7d' [] (by decide)
      (hVi p.Increment '\x7d' _ endsNumber_brace) hsb,
    if_neg (by decide), if_pos rfl]
  rfl

theorem readInt_encodeInt (n : Int) : readInt (encodeInt n) = some n := by
  cases n with
  | ofNat k =>
    obtain ⟨d, ds, heq, hd, hds, _, hval⟩ := toDigits_spec k
    have hminus : d ≠ '-' := fun h => by subst h; exact absurd hd (by decide)
    have hall : (d :: ds).all Char.isDigit = true := by
      simp only [List.all_cons, hd, Bool.true_and, List.all_eq_true]
      exact hds
    simp only [encodeInt, heq, readInt, hminus, if_false, hall, if_true, hval]
    rfl
  | negSucc k =>
    obtain ⟨d, ds, heq, hd, hds, _, hval⟩ := toDigits_spec (k + 1)
    have hall : (d :: ds).all Char.isDigit = true := by
      simp only [List.all_cons, hd, Bool.true_and, List.all_eq_true]
      exact hds
    have hne : d :: ds ≠ [] := List.cons_ne_nil _ _
    simp only [encodeInt, heq, readInt, if_true, hall, hne, ne_eq, not_false_eq_true,
      and_self, hval]
    rfl

/-- A client that looks up the Go field names reads back exactly the profile
that was encoded. -/
theorem clientDecode_goFieldKeys (p : FoodieBuckProfile) :
    clientDecode goFieldKeys (String.mk (marshalProfile p)) = some p := by
  have hpk : stringMember
      [ ("PK".data, JSONValue.string p.PK.data), ("SK".data, JSONValue.string p.SK.data),
        ("Name".data, JSONValue.string p.Name.data),
        ("Available".data, JSONValue.number (encodeInt p.Available)),
        ("Used".data, JSONValue.number (encodeInt p.Used)),
        ("Increment".data, JSONValue.number (encodeInt p.Increment)) ] "PK" = some p.PK := rfl
  have hsk : stringMember
      [ ("PK".data, JSONValue.string p.PK.data), ("SK".data, JSONValue.string p.SK.data),
        ("Name".data, JSONValue.string p.Name.data),
        ("Available".data, JSONValue.number (encodeInt p.Available)),
        ("Used".data, JSONValue.number (encodeInt p.Used)),
        ("Increment".data, JSONValue.number (encodeInt p.Increment)) ] "SK" = some p.SK := rfl
  have hname : stringMember
      [ ("PK".data, JSONValue.string p.PK.data), ("SK".data, JSONValue.string p.SK.data),
        ("Name".data, JSONValue.string p.Name.data),
        ("Available".data, JSONValue.number (encodeInt p.Available)),
        ("Used".data, JSONValue.number (encodeInt p.Used)),
        ("Increment".data, JSONValue.number (encodeInt p.Increment)) ] "Name" =
      some p.Name := rfl
  have hav : intMember
      [ ("PK".data, JSONValue.string p.PK.data), ("SK".data, JSONValue.string p.SK.data),
        ("Name".data, JSONValue.string p.Name.data),
        ("Available".data, JSONValue.number (encodeInt p.Available)),
        ("Used".data, JSONValue.number (encodeInt p.Used)),
        ("Increment".data, JSONValue.number (encodeInt p.Increment)) ] "Available" =
      readInt (encodeInt p.Available) := rfl
  have hus : intMember
      [ ("PK".data, JSONValue.string p.PK.data), ("SK".data, JSONValue.string p.SK.data),
        ("Name".data, JSONValue.string p.Name.data),
        ("Available".data, JSONValue.number (encodeInt p.Available)),
        ("Used".data, JSONValue.number (encodeInt p.Used)),
        ("Increment".data, JSONValue.number (encodeInt p.Increment)) ] "Used" =
      readInt (encodeInt p.Used) := rfl
  have hinc : intMember
      [ ("PK".data, JSONValue.string p.PK.data), ("SK".data, JSONValue.string p.SK.data),
        ("Name".data, JSONValue.string p.Name.data),
        ("Available".data, JSONValue.number (encodeInt p.Available)),
        ("Used".data, JSONValue.number (encodeInt p.Used)),
        ("Increment".data, JSONValue.number (encodeInt p.Increment)) ] "Increment" =
      readInt (encodeInt p.Increment) := rfl
  unfold clientDecode
  simp only [parseJSON_marshalProfile, profileObject, goFieldKeys, hpk, hsk, hname, hav, hus,
    hinc, readInt_encodeInt]

/-! ## The decoder of stored items -/

theorem fieldByName_avName (f : ProfileField) : fieldByName f.avName = some f := by
  cases f <;> decide

theorem avName_injective (f g : ProfileField) (h : f.avName = g.avName) : f = g := by
  cases f <;> cases g <;> first | rfl | exact absurd h (by decide)

theorem str_setString (q : FoodieBuckProfile) (f g : ProfileField) (s : String)
    (hg : g.isString = true) :
    (q.setString g s).str f = if f = g then s else q.str f := by
  cases f <;> cases g <;> simp_all [FoodieBuckProfile.setString, FoodieBuckProfile.str, ProfileField.isString]

theorem int_setString (q : FoodieBuckProfile) (f g : ProfileField) (s : String) :
    (q.setString g s).int f = q.int f := by
  cases f <;> cases g <;> simp [FoodieBuckProfile.setString, FoodieBuckProfile.int]

theorem int_setInt (q : FoodieBuckProfile) (f g : ProfileField) (i : Int)
    (hg : g.isString = false) :
    (q.setInt g i).int f = if f = g then i else q.int f := by
  cases f <;> cases g <;> simp_all [FoodieBuckProfile.setInt, FoodieBuckProfile.int, ProfileField.isString]

theorem str_setInt (q : FoodieBuckProfile) (f g : ProfileField) (i : Int) :
    (q.setInt g i).str f = q.str f := by
  cases f <;> cases g <;> simp [FoodieBuckProfile.setInt, FoodieBuckProfile.str]

/-- Two entries of an item with distinct names that carry the same name carry
the same value. -/
theorem value_unique_of_nodup :
    ∀ (l : Item) (k : String) (v₁ v₂ : AttributeValue),
      (l.map Prod.fst).Nodup → (k, v₁) ∈ l → (k, v₂) ∈ l → v₁ = v₂ := by
  intro l
  induction l with
  | nil => intro k v₁ v₂ _ h; cases h
  | cons e rest ih =>
    intro k v₁ v₂ hnd h₁ h₂
    rw [List.map_cons, List.nodup_cons] at hnd
    have hmem : ∀ v, (k, v) ∈ rest → k ∈ rest.map Prod.fst :=
      fun v hv => List.mem_map.mpr ⟨(k, v), hv, rfl⟩
    rcases List.mem_cons.mp h₁ with h₁ | h₁ <;> rcases List.mem_cons.mp h₂ with h₂ | h₂
    · rw [← h₂] at h₁
      exact (Prod.mk.inj h₁).2
    · exact absurd (hmem v₂ h₂) (by rw [← h₁] at hnd; exact hnd.1)
    · exact absurd (hmem v₁ h₁) (by rw [← h₂] at hnd; exact hnd.1)
    · exact ih k v₁ v₂ hnd.2 h₁ h₂

/-- The decoder on an item whose names are distinct, none of them a mere case
variant of a tag, and whose selected values are well typed: it returns no
error, every field whose store field is present holds the stored value, and
every other field keeps what it held. -/
theorem UnmarshalMap_fields :
    ∀ (l : Item) (q : FoodieBuckProfile),
      (l.map Prod.fst).Nodup →
      (∀ e ∈ l, ∀ f, fieldByName e.1 = some f → e.1 = f.avName ∧ wellTyped f e.2) →
      (UnmarshalMap l q).2 = none ∧
      ∀ f : ProfileField,
        (∀ s, (f.avName, AttributeValue.S s) ∈ l → (UnmarshalMap l q).1.str f = s) ∧
        (∀ n i, (f.avName, AttributeValue.N n) ∈ l → parseInt64 n = .ok i →
          (UnmarshalMap l q).1.int f = i) ∧
        (f.avName ∉ l.map Prod.fst →
          (UnmarshalMap l q).1.str f = q.str f ∧ (UnmarshalMap l q).1.int f = q.int f) := by
  intro l
  induction l with
  | nil =>
    intro q _ _
    refine ⟨rfl, fun f => ⟨?_, ?_, ?_⟩⟩
    · intro s h
      exact absurd h (List.not_mem_nil _)
    · intro n i h
      exact absurd h (List.not_mem_nil _)
    · intro _
      exact ⟨rfl, rfl⟩
  | cons e rest ih =>
    intro q hnd hok
    obtain ⟨k, av⟩ := e
    rw [List.map_cons, List.nodup_cons] at hnd
    have hokrest : ∀ e ∈ rest, ∀ f, fieldByName e.1 = some f →
        e.1 = f.avName ∧ wellTyped f e.2 :=
      fun e he => hok e (List.mem_cons_of_mem _ he)
    have hkey : ∀ (v : AttributeValue), (k, v) ∈ rest → False :=
      fun v hv => hnd.1 (List.mem_map.mpr ⟨(k, v), hv, rfl⟩)
    cases hf : fieldByName k with
    | none =>
      have hne : ∀ f : ProfileField, f.avName ≠ k := by
        intro f h
        rw [← h, fieldByName_avName] at hf
        cases hf
      have hstep : UnmarshalMap ((k, av) :: rest) q = UnmarshalMap rest q := by
        simp [UnmarshalMap, hf]
      rw [hstep]
      obtain ⟨herr, hfields⟩ := ih q hnd.2 hokrest
      refine ⟨herr, fun f => ⟨?_, ?_, ?_⟩⟩
      · intro s hs
        rcases List.mem_cons.mp hs with h | h
        · exact absurd (Prod.mk.inj h).1 (hne f)
        · exact (hfields f).1 s h
      · intro n i hn hi
        rcases List.mem_cons.mp hn with h | h
        · exact absurd (Prod.mk.inj h).1 (hne f)
        · exact (hfields f).2.1 n i h hi
      · intro hnot
        exact (hfields f).2.2 (fun h => hnot (List.mem_cons_of_mem _ h))
    | some g =>
      obtain ⟨hk, hty⟩ := hok (k, av) (List.mem_cons_self _ _) g hf
      have hk' : k = g.avName := hk
      have hgrest : g.avName ∉ rest.map Prod.fst := by rw [← hk']; exact hnd.1
      rcases hty with ⟨hstr, s0, hav⟩ | ⟨hint, n0, i0, hav, hparse⟩
      · have hav' : av = AttributeValue.S s0 := hav
        subst hav'
        have hstep : UnmarshalMap ((k, AttributeValue.S s0) :: rest) q =
            UnmarshalMap rest (q.setString g s0) := by
          simp [UnmarshalMap, hf, decodeAttribute, hstr]
        rw [hstep]
        obtain ⟨herr, hfields⟩ := ih (q.setString g s0) hnd.2 hokrest
        refine ⟨herr, fun f => ⟨?_, ?_, ?_⟩⟩
        · intro s hs
          rcases List.mem_cons.mp hs with h | h
          · have h1 := (Prod.mk.inj h).1
            have h2 := (Prod.mk.inj h).2
            have hfg : f = g := avName_injective f g (by rw [h1, hk'])
            subst hfg
            have := ((hfields f).2.2 hgrest).1
            rw [this, str_setString _ _ _ _ hstr, if_pos rfl]
            injection h2 with h3
            exact h3.symm
          · exact (hfields f).1 s h
        · intro n i hn hi
          rcases List.mem_cons.mp hn with h | h
          · have h2 := (Prod.mk.inj h).2
            cases h2
          · exact (hfields f).2.1 n i h hi
        · intro hnot
          have hfg : f ≠ g := by
            intro h
            subst h
            exact hnot (by rw [List.map_cons, ← hk']; exact List.mem_cons_self _ _)
          have hr := (hfields f).2.2 (fun h => hnot (List.mem_cons_of_mem _ h))
          rw [hr.1, hr.2, str_setString _ _ _ _ hstr, if_neg hfg, int_setString]
          exact ⟨rfl, rfl⟩
      · have hav' : av = AttributeValue.N n0 := hav
        subst hav'
        have hstep : UnmarshalMap ((k, AttributeValue.N n0) :: rest) q =
            UnmarshalMap rest (q.setInt g i0) := by
          simp [UnmarshalMap, hf, decodeAttribute, hint, hparse]
        rw [hstep]
        obtain ⟨herr, hfields⟩ := ih (q.setInt g i0) hnd.2 hokrest
        refine ⟨herr, fun f => ⟨?_, ?_, ?_⟩⟩
        · intro s hs
          rcases List.mem_cons.mp hs with h | h
          · have h2 := (Prod.mk.inj h).2
            cases h2
          · exact (hfields f).1 s h
        · intro n i hn hi
          rcases List.mem_cons.mp hn with h | h
          · have h1 := (Prod.mk.inj h).1
            have h2 := (Prod.mk.inj h).2
            have hfg : f = g := avName_injective f g (by rw [h1, hk'])
            subst hfg
            have := ((hfields f).2.2 hgrest).2
            rw [this, int_setInt _ _ _ _ hint, if_pos rfl]
            injection h2 with h3
            rw [h3, hparse] at hi
            injection hi
          · exact (hfields f).2.1 n i h hi
        · intro hnot
          have hfg : f ≠ g := by
            intro h
            subst h
            exact hnot (by rw [List.map_cons, ← hk']; exact List.mem_cons_self _ _)
          have hr := (hfields f).2.2 (fun h => hnot (List.mem_cons_of_mem _ h))
          rw [hr.1, hr.2, int_setInt _ _ _ _ hint, if_neg hfg, str_setInt]
          exact ⟨rfl, rfl⟩

theorem zeroProfile_str (f : ProfileField) : zeroProfile.str f = "" := by
  cases f <;> rfl

theorem zeroProfile_int (f : ProfileField) : zeroProfile.int f = 0 := by
  cases f <;> rfl

/-- The decoder on a well-formed item, started from the zero-valued profile:
no error, every field whose store field is present holds the stored value,
every other field is zero. -/
theorem UnmarshalMap_wellFormed (item : Item) (h : item.wellFormed) :
    (UnmarshalMap item zeroProfile).2 = none ∧
      ∀ f : ProfileField,
        (∀ s, (f.avName, AttributeValue.S s) ∈ item →
          (UnmarshalMap item zeroProfile).1.str f = s) ∧
        (∀ n i, (f.avName, AttributeValue.N n) ∈ item → parseInt64 n = .ok i →
          (UnmarshalMap item zeroProfile).1.int f = i) ∧
        (f.avName ∉ item.map Prod.fst →
          (UnmarshalMap item zeroProfile).1.str f = "" ∧
            (UnmarshalMap item zeroProfile).1.int f = 0) := by
  obtain ⟨herr, hfields⟩ := UnmarshalMap_fields item zeroProfile h.1 h.2
  refine ⟨herr, fun f => ⟨(hfields f).1, (hfields f).2.1, fun hnot => ?_⟩⟩
  have := (hfields f).2.2 hnot
  rw [zeroProfile_str, zeroProfile_int] at this
  exact this

theorem foundEmptyItem_wellFormed : foundEmptyItem.wellFormed := by
  refine ⟨by decide, ?_⟩
  intro e he f hf
  simp only [foundEmptyItem, List.mem_cons, List.mem_singleton, List.not_mem_nil,
    or_false] at he
  rcases he with rfl | rfl | rfl | rfl | rfl | rfl
  · have hsel : fieldByName "pk" = some ProfileField.PK := by decide
    rw [hsel] at hf
    cases hf
    exact ⟨rfl, Or.inl ⟨rfl, _, rfl⟩⟩
  · have hsel : fieldByName "sk" = some ProfileField.SK := by decide
    rw [hsel] at hf
    cases hf
    exact ⟨rfl, Or.inl ⟨rfl, _, rfl⟩⟩
  · have hsel : fieldByName "displayName" = some ProfileField.Name := by decide
    rw [hsel] at hf
    cases hf
    exact ⟨rfl, Or.inl ⟨rfl, _, rfl⟩⟩
  · have hsel : fieldByName "foodieBucksAvailable" = some ProfileField.Available := by decide
    rw [hsel] at hf
    cases hf
    exact ⟨rfl, Or.inr ⟨rfl, _, 0, rfl, rfl⟩⟩
  · have hsel : fieldByName "foodieBucksUsed" = some ProfileField.Used := by decide
    rw [hsel] at hf
    cases hf
    exact ⟨rfl, Or.inr ⟨rfl, _, 0, rfl, rfl⟩⟩
  · have hsel : fieldByName "foodieBuckIncrement" = some ProfileField.Increment := by decide
    rw [hsel] at hf
    cases hf
    exact ⟨rfl, Or.inr ⟨rfl, _, 0, rfl, rfl⟩⟩

/-- The encoder is injective: two profiles with the same body are the same
profile. -/
theorem marshalProfile_injective (p q : FoodieBuckProfile)
    (h : String.mk (marshalProfile p) = String.mk (marshalProfile q)) : p = q := by
  have hp := clientDecode_goFieldKeys p
  rw [h, clientDecode_goFieldKeys q] at hp
  exact (Option.some.inj hp).symm

theorem scenarioItem_wellFormed : scenarioItem.wellFormed := by
  refine ⟨by decide, ?_⟩
  intro e he f hf
  simp only [scenarioItem, List.mem_cons, List.mem_singleton, List.not_mem_nil, or_false] at he
  rcases he with rfl | rfl | rfl | rfl | rfl | rfl
  · have hsel : fieldByName "pk" = some ProfileField.PK := by decide
    rw [hsel] at hf
    cases hf
    exact ⟨rfl, Or.inl ⟨rfl, _, rfl⟩⟩
  · have hsel : fieldByName "sk" = some ProfileField.SK := by decide
    rw [hsel] at hf
    cases hf
    exact ⟨rfl, Or.inl ⟨rfl, _, rfl⟩⟩
  · have hsel : fieldByName "displayName" = some ProfileField.Name := by decide
    rw [hsel] at hf
    cases hf
    exact ⟨rfl, Or.inl ⟨rfl, _, rfl⟩⟩
  · have hsel : fieldByName "foodieBucksAvailable" = some ProfileField.Available := by decide
    rw [hsel] at hf
    cases hf
    exact ⟨rfl, Or.inr ⟨rfl, _, 50, rfl, rfl⟩⟩
  · have hsel : fieldByName "foodieBucksUsed" = some ProfileField.Used := by decide
    rw [hsel] at hf
    cases hf
    exact ⟨rfl, Or.inr ⟨rfl, _, 7, rfl, rfl⟩⟩
  · have hsel : fieldByName "foodieBuckIncrement" = some ProfileField.Increment := by decide
    rw [hsel] at hf
    cases hf
    exact ⟨rfl, Or.inr ⟨rfl, _, 5, rfl, rfl⟩⟩

/-- Every profile whose integers are in the 64-bit range is what the decoder
makes of a stored item: the item that holds its six values. -/
theorem UnmarshalMap_profileItem (p : FoodieBuckProfile) (ha : isInt64 p.Available)
    (hu : isInt64 p.Used) (hi : isInt64 p.Increment) :
    UnmarshalMap (profileItem p) zeroProfile = (p, none) := by
  have h1 : fieldByName "pk" = some ProfileField.PK := by decide
  have h2 : fieldByName "sk" = some ProfileField.SK := by decide
  have h3 : fieldByName "displayName" = some ProfileField.Name := by decide
  have h4 : fieldByName "foodieBucksAvailable" = some ProfileField.Available := by decide
  have h5 : fieldByName "foodieBucksUsed" = some ProfileField.Used := by decide
  have h6 : fieldByName "foodieBuckIncrement" = some ProfileField.Increment := by decide
  simp only [profileItem, UnmarshalMap, h1, h2, h3, h4, h5, h6, decodeAttribute,
    ProfileField.isString, if_true, Bool.false_eq_true, if_false,
    parseInt64_encodeInt _ ha.1 ha.2, parseInt64_encodeInt _ hu.1 hu.2,
    parseInt64_encodeInt _ hi.1 hi.2, FoodieBuckProfile.setString, FoodieBuckProfile.setInt,
    zeroProfile]

/-! ## The contract of the router and the fetcher -/

/-- C1: a request whose method is not exactly `GET` gets status 405 with body
`Method Not Allowed` and a nil error, whatever its body, and no store lookup
(no effect at all) is made. -/
theorem router_other_method (w : World) (r : APIGatewayV2HTTPRequest)
    (h : r.RequestContext.HTTP.Method ≠ "GET") :
    (router w r).result =
        Result.returned { StatusCode := 405, Body := "Method Not Allowed" } none ∧
      (router w r).lookups = [] ∧ (router w r).trace = [] := by
  unfold router
  rw [router_not_get jsonMarshal w r h, statusText_methodNotAllowed]
  exact ⟨rfl, rfl, rfl⟩

theorem router_other_method_witness :
    ("POST" ≠ "GET" ∧ "get" ≠ "GET" ∧ "" ≠ "GET") ∧
      ((router failingStoreWorld (mkRequest "POST" scenarioBody)).result =
          Result.returned { StatusCode := 405, Body := "Method Not Allowed" } none ∧
        (router failingStoreWorld (mkRequest "POST" scenarioBody)).lookups = [] ∧
        (router failingStoreWorld (mkRequest "POST" scenarioBody)).trace = []) ∧
      ((router (tableWorld [scenarioItem]) (mkRequest "get" "\x7b\"pk\":")).result =
          Result.returned { StatusCode := 405, Body := "Method Not Allowed" } none ∧
        (router (tableWorld [scenarioItem]) (mkRequest "get" "\x7b\"pk\":")).lookups = [] ∧
        (router (tableWorld [scenarioItem]) (mkRequest "get" "\x7b\"pk\":")).trace = []) ∧
      ((router (tableWorld [scenarioItem]) (mkRequest "" "")).result =
          Result.returned { StatusCode := 405, Body := "Method Not Allowed" } none ∧
        (router (tableWorld [scenarioItem]) (mkRequest "" "")).lookups = [] ∧
        (router (tableWorld [scenarioItem]) (mkRequest "" "")).trace = []) :=
  ⟨by decide,
   router_other_method failingStoreWorld (mkRequest "POST" scenarioBody) (by decide),
   router_other_method (tableWorld [scenarioItem]) (mkRequest "get" "\x7b\"pk\":") (by decide),
   router_other_method (tableWorld [scenarioItem]) (mkRequest "" "") (by decide)⟩

set_option maxRecDepth 100000 in
/-- C2, refuted as stated: for the scenario request and the scenario item the
router returns 200, but the keys of the body are the Go field names, not the
documented store field names, and the text `"foodieBucksAvailable":50` is not
in the body; and for a stored item whose `foodieBucksAvailable` is a string
attribute the body carries 0, not the stored value. -/
theorem router_scenario_body_keys :
    (router (tableWorld [scenarioItem]) (mkRequest "GET" scenarioBody)).result =
        Result.returned { StatusCode := 200, Body := scenarioProfileBody } none ∧
      bodyKeys scenarioProfileBody =
        some ["PK", "SK", "Name", "Available", "Used", "Increment"] ∧
      bodyKeys scenarioProfileBody ≠
        some ["pk", "sk", "displayName", "foodieBucksAvailable", "foodieBucksUsed",
              "foodieBuckIncrement"] ∧
      ¬ ("\"foodieBucksAvailable\":50".data <:+: scenarioProfileBody.data) ∧
      (router (tableWorld [mistypedItem]) (mkRequest "GET" scenarioBody)).result =
        Result.returned
          { StatusCode := 200
            Body := "\x7b\"PK\":\"USER#123\",\"SK\":\"PROFILE#123\",\"Name\":\"Glenn\",\"Available\":0,\"Used\":0,\"Increment\":0\x7d" }
          none := by
  refine ⟨by decide, by decide, by decide, by decide, by decide⟩

/-- C2, amended: for a `GET` request whose key names a well-formed stored item
(each mapped store field, when present, of the type of its Go field), the
router returns 200 with a nil error, and the body is a JSON object whose keys
are exactly the Go field names `PK`, `SK`, `Name`, `Available`, `Used`,
`Increment`, in that order, carrying the profile `p` whose every field holds
the value the item stores under the tag of the field (`pk`, `sk`,
`displayName`, `foodieBucksAvailable`, `foodieBucksUsed`,
`foodieBuckIncrement`), or the zero value when the item has no such field. -/
theorem router_found_item (w : World) (r : APIGatewayV2HTTPRequest) (item : Item)
    (hm : r.RequestContext.HTTP.Method = "GET")
    (hc : w.loadDefaultConfig "us-east-2" = none)
    (hg : w.getItem (getItemInput (unmarshalAPIRequest r).1) = .ok { Item := item })
    (hwf : item.wellFormed) :
    ∃ (body : String) (p : FoodieBuckProfile),
      (router w r).result = Result.returned { StatusCode := 200, Body := body } none ∧
      parseJSON body.data =
        some (JSONValue.object
          [ ("PK".data, JSONValue.string p.PK.data),
            ("SK".data, JSONValue.string p.SK.data),
            ("Name".data, JSONValue.string p.Name.data),
            ("Available".data, JSONValue.number (encodeInt p.Available)),
            ("Used".data, JSONValue.number (encodeInt p.Used)),
            ("Increment".data, JSONValue.number (encodeInt p.Increment)) ]) ∧
      bodyKeys body = some ["PK", "SK", "Name", "Available", "Used", "Increment"] ∧
      ∀ f : ProfileField,
        (∀ s, (f.avName, AttributeValue.S s) ∈ item → p.str f = s) ∧
        (∀ n i, (f.avName, AttributeValue.N n) ∈ item → parseInt64 n = .ok i →
          p.int f = i) ∧
        (f.avName ∉ item.map Prod.fst → p.str f = "" ∧ p.int f = 0) := by
  obtain ⟨_, hfields⟩ := UnmarshalMap_wellFormed item hwf
  refine ⟨String.mk (marshalProfile (UnmarshalMap item zeroProfile).1),
    (UnmarshalMap item zeroProfile).1, ?_, parseJSON_marshalProfile _, ?_, hfields⟩
  · unfold router
    rw [router_get jsonMarshal w r hm]
    have := getProfile_result_ok w (unmarshalAPIRequest r).1 _ hc hg
    unfold getProfile at this
    rw [this]
  · unfold bodyKeys
    rw [parseJSON_marshalProfile]
    rfl

theorem router_found_item_witness :
    ((mkRequest "GET" scenarioBody).RequestContext.HTTP.Method = "GET" ∧
      (tableWorld [scenarioItem]).loadDefaultConfig "us-east-2" = none ∧
      (tableWorld [scenarioItem]).getItem
          (getItemInput (unmarshalAPIRequest (mkRequest "GET" scenarioBody)).1) =
        .ok { Item := scenarioItem } ∧
      scenarioItem.wellFormed) ∧
    ∃ (body : String) (p : FoodieBuckProfile),
      (router (tableWorld [scenarioItem]) (mkRequest "GET" scenarioBody)).result =
        Result.returned { StatusCode := 200, Body := body } none ∧
      parseJSON body.data =
        some (JSONValue.object
          [ ("PK".data, JSONValue.string p.PK.data),
            ("SK".data, JSONValue.string p.SK.data),
            ("Name".data, JSONValue.string p.Name.data),
            ("Available".data, JSONValue.number (encodeInt p.Available)),
            ("Used".data, JSONValue.number (encodeInt p.Used)),
            ("Increment".data, JSONValue.number (encodeInt p.Increment)) ]) ∧
      bodyKeys body = some ["PK", "SK", "Name", "Available", "Used", "Increment"] ∧
      ∀ f : ProfileField,
        (∀ s, (f.avName, AttributeValue.S s) ∈ scenarioItem → p.str f = s) ∧
        (∀ n i, (f.avName, AttributeValue.N n) ∈ scenarioItem → parseInt64 n = .ok i →
          p.int f = i) ∧
        (f.avName ∉ scenarioItem.map Prod.fst → p.str f = "" ∧ p.int f = 0) :=
  ⟨⟨rfl, rfl, rfl, scenarioItem_wellFormed⟩,
   router_found_item (tableWorld [scenarioItem]) (mkRequest "GET" scenarioBody) scenarioItem
     rfl rfl rfl scenarioItem_wellFormed⟩

/-- C3, the code at the failing inputs: the body `{` is not valid JSON, yet a
`POST` with it gets 405; a `GET` with it runs the lookup with the empty key and
gets 200 with the zero-valued profile when the store finds nothing, or ends in
a process exit when the store refuses the lookup.  None of them gets 422. -/
theorem router_malformed_body_not_422 :
    (unmarshalAPIRequest (mkRequest "POST" "\x7b")).2 = some GoError.jsonSyntax ∧
      (router (tableWorld [scenarioItem]) (mkRequest "POST" "\x7b")).result =
        Result.returned { StatusCode := 405, Body := "Method Not Allowed" } none ∧
      (router (tableWorld [scenarioItem]) (mkRequest "GET" "\x7b")).result =
        Result.returned { StatusCode := 200, Body := zeroProfileBody } none ∧
      (router failingStoreWorld (mkRequest "GET" "\x7b")).result = Result.exited 1 := by
  refine ⟨by decide, by decide, by decide, by decide⟩

/-- C4: when the configuration loads and the lookup succeeds with no item,
`getProfile` returns status 200, a nil error and the serialization of the
zero-valued profile, the same for every requested `pk` and `sk`; its only
effects are loading the configuration and the one lookup. -/
theorem getProfile_not_found (w : World) (r : foodieBuckRequest)
    (hc : w.loadDefaultConfig "us-east-2" = none)
    (hg : w.getItem (getItemInput r) = .ok { Item := [] }) :
    getProfile w r =
        { trace := [Event.loadDefaultConfig "us-east-2", Event.getItem (getItemInput r)]
          result := Result.returned { StatusCode := 200, Body := zeroProfileBody } none } ∧
      jsonMarshal zeroProfile = .ok zeroProfileBody ∧
      zeroProfile = { PK := "", SK := "", Name := "", Available := 0, Used := 0,
                      Increment := 0 } := by
  refine ⟨?_, rfl, rfl⟩
  unfold getProfile getProfileWith
  rw [hc, hg]
  rfl

theorem getProfile_not_found_witness :
    ((tableWorld [scenarioItem]).loadDefaultConfig "us-east-2" = none ∧
      (tableWorld [scenarioItem]).getItem
          (getItemInput { PK := "USER#404", SK := "PROFILE#404", TableName := "" }) =
        .ok { Item := [] }) ∧
    (getProfile (tableWorld [scenarioItem])
          { PK := "USER#404", SK := "PROFILE#404", TableName := "" } =
        { trace := [Event.loadDefaultConfig "us-east-2",
                    Event.getItem (getItemInput
                      { PK := "USER#404", SK := "PROFILE#404", TableName := "" })]
          result := Result.returned { StatusCode := 200, Body := zeroProfileBody } none } ∧
      jsonMarshal zeroProfile = .ok zeroProfileBody ∧
      zeroProfile = { PK := "", SK := "", Name := "", Available := 0, Used := 0,
                      Increment := 0 }) :=
  ⟨⟨rfl, rfl⟩,
   getProfile_not_found (tableWorld [scenarioItem])
     { PK := "USER#404", SK := "PROFILE#404", TableName := "" } rfl rfl⟩

/-- C5: the response for a key pair that is not in the store can be told from
the response for a found-but-empty profile.  A stored profile carries its key,
a non-empty string `pk` (main.go:25-26), so no well-formed stored item maps to
the profile whose six fields are all empty or zero; and for every such item,
whatever its other fields hold, the response of the successful lookup differs
from the response of a lookup that returns no item: both have status 200, the
first carries the `pk` of the item under `PK`, the second the empty string. -/
theorem getProfile_found_distinguishable (w₁ w₂ : World) (r₁ r₂ : foodieBuckRequest)
    (item : Item) (pk : String)
    (hc₁ : w₁.loadDefaultConfig "us-east-2" = none)
    (hc₂ : w₂.loadDefaultConfig "us-east-2" = none)
    (hfound : w₁.getItem (getItemInput r₁) = .ok { Item := item })
    (hmissing : w₂.getItem (getItemInput r₂) = .ok { Item := [] })
    (hwf : item.wellFormed)
    (hpk : ("pk", AttributeValue.S pk) ∈ item)
    (hne : pk ≠ "") :
    (getProfile w₁ r₁).result ≠ (getProfile w₂ r₂).result ∧
      (UnmarshalMap item zeroProfile).1 ≠ zeroProfile ∧
      (getProfile w₂ r₂).result =
        Result.returned { StatusCode := 200, Body := zeroProfileBody } none ∧
      clientDecode goFieldKeys zeroProfileBody = some zeroProfile ∧
      ∃ (body : String) (p : FoodieBuckProfile),
        (getProfile w₁ r₁).result =
          Result.returned { StatusCode := 200, Body := body } none ∧
        clientDecode goFieldKeys body = some p ∧ p.PK = pk := by
  have hfields := (UnmarshalMap_wellFormed item hwf).2 ProfileField.PK
  have hPK : (UnmarshalMap item zeroProfile).1.PK = pk := hfields.1 pk hpk
  have hnz : (UnmarshalMap item zeroProfile).1 ≠ zeroProfile := by
    intro h
    rw [h] at hPK
    exact hne hPK.symm
  have h₁ := getProfile_result_ok w₁ r₁ _ hc₁ hfound
  have h₂ := getProfile_result_ok w₂ r₂ _ hc₂ hmissing
  have hzero : String.mk (marshalProfile (UnmarshalMap ([] : Item) zeroProfile).1) =
      zeroProfileBody := rfl
  refine ⟨?_, hnz, ?_, ?_, _, _, h₁, clientDecode_goFieldKeys _, hPK⟩
  · intro heq
    rw [h₁, h₂] at heq
    simp only [Result.returned.injEq, APIGatewayV2HTTPResponse.mk.injEq, true_and,
      and_true] at heq
    exact hnz (marshalProfile_injective _ _ heq)
  · rw [h₂, hzero]
  · exact clientDecode_goFieldKeys zeroProfile

theorem getProfile_found_distinguishable_witness :
    ((tableWorld [foundEmptyItem]).loadDefaultConfig "us-east-2" = none ∧
      (tableWorld []).loadDefaultConfig "us-east-2" = none ∧
      (tableWorld [foundEmptyItem]).getItem (getItemInput scenarioKey) =
        .ok { Item := foundEmptyItem } ∧
      (tableWorld []).getItem (getItemInput scenarioKey) = .ok { Item := [] } ∧
      foundEmptyItem.wellFormed ∧
      ("pk", AttributeValue.S "USER#123") ∈ foundEmptyItem ∧
      "USER#123" ≠ "") ∧
    (getProfile (tableWorld [foundEmptyItem]) scenarioKey).result =
      Result.returned { StatusCode := 200, Body := foundEmptyBody } none ∧
    ((getProfile (tableWorld [foundEmptyItem]) scenarioKey).result ≠
        (getProfile (tableWorld []) scenarioKey).result ∧
      (UnmarshalMap foundEmptyItem zeroProfile).1 ≠ zeroProfile ∧
      (getProfile (tableWorld []) scenarioKey).result =
        Result.returned { StatusCode := 200, Body := zeroProfileBody } none ∧
      clientDecode goFieldKeys zeroProfileBody = some zeroProfile ∧
      ∃ (body : String) (p : FoodieBuckProfile),
        (getProfile (tableWorld [foundEmptyItem]) scenarioKey).result =
          Result.returned { StatusCode := 200, Body := body } none ∧
        clientDecode goFieldKeys body = some p ∧ p.PK = "USER#123") :=
  ⟨⟨rfl, rfl, rfl, rfl, foundEmptyItem_wellFormed, by simp [foundEmptyItem], by decide⟩,
   by decide,
   getProfile_found_distinguishable (tableWorld [foundEmptyItem]) (tableWorld [])
     scenarioKey scenarioKey foundEmptyItem "USER#123" rfl rfl rfl rfl
     foundEmptyItem_wellFormed (by simp [foundEmptyItem]) (by decide)⟩

/-- C6, refuted as stated: the 200 body written for the scenario item, read by
a client under the documented names, does not give back the profile: only
`pk` and `sk` are found (a lenient client ignores case), and `displayName` and
the three counts are missing from the body. -/
theorem documented_names_do_not_round_trip :
    UnmarshalMap scenarioItem zeroProfile = (scenarioProfile, none) ∧
      (getProfile (tableWorld [scenarioItem]) scenarioKey).result =
        Result.returned { StatusCode := 200, Body := scenarioProfileBody } none ∧
      clientDecode documentedKeys scenarioProfileBody =
        some { PK := "USER#123", SK := "PROFILE#123", Name := "", Available := 0, Used := 0,
               Increment := 0 } ∧
      clientDecode documentedKeys scenarioProfileBody ≠ some scenarioProfile := by
  refine ⟨by decide, by decide, by decide, by decide⟩

/-- C6, amended: the 200 body that `getProfile` writes for a stored item that
decodes to the profile `p`, read by a client under the Go field names `PK`,
`SK`, `Name`, `Available`, `Used`, `Increment`, gives back exactly the six
values of `p`. -/
theorem go_names_round_trip (w : World) (r : foodieBuckRequest) (item : Item)
    (p : FoodieBuckProfile)
    (hc : w.loadDefaultConfig "us-east-2" = none)
    (hg : w.getItem (getItemInput r) = .ok { Item := item })
    (hp : UnmarshalMap item zeroProfile = (p, none)) :
    ∃ body, (getProfile w r).result =
        Result.returned { StatusCode := 200, Body := body } none ∧
      clientDecode goFieldKeys body = some p := by
  refine ⟨String.mk (marshalProfile p), ?_, clientDecode_goFieldKeys p⟩
  rw [getProfile_result_ok w r _ hc hg, hp]

theorem go_names_round_trip_witness :
    ((tableWorld [profileItem escapedProfile]).loadDefaultConfig "us-east-2" = none ∧
      (tableWorld [profileItem escapedProfile]).getItem
          (getItemInput { PK := escapedProfile.PK, SK := escapedProfile.SK, TableName := "" }) =
        .ok { Item := profileItem escapedProfile } ∧
      UnmarshalMap (profileItem escapedProfile) zeroProfile = (escapedProfile, none)) ∧
    ∃ body, (getProfile (tableWorld [profileItem escapedProfile])
          { PK := escapedProfile.PK, SK := escapedProfile.SK, TableName := "" }).result =
        Result.returned { StatusCode := 200, Body := body } none ∧
      clientDecode goFieldKeys body = some escapedProfile :=
  ⟨⟨rfl, rfl,
    UnmarshalMap_profileItem escapedProfile ⟨by decide, by decide⟩ ⟨by decide, by decide⟩
      ⟨by decide, by decide⟩⟩,
   go_names_round_trip (tableWorld [profileItem escapedProfile])
     { PK := escapedProfile.PK, SK := escapedProfile.SK, TableName := "" }
     (profileItem escapedProfile) escapedProfile rfl rfl
     (UnmarshalMap_profileItem escapedProfile ⟨by decide, by decide⟩ ⟨by decide, by decide⟩
       ⟨by decide, by decide⟩)⟩

/-- C7, refuted as stated: when the configuration fails to load, `getProfile`
issues no lookup at all. -/
theorem getProfile_config_failure_no_lookup :
    (getProfile failingConfigWorld scenarioKey).lookups = [] ∧
      (getProfile failingConfigWorld scenarioKey).lookups.length ≠ 1 := by
  refine ⟨rfl, by decide⟩

/-- C7, amended: once the configuration has loaded, `getProfile` issues exactly
one lookup, with key `pk` = `r.PK`, `sk` = `r.SK` and the fixed table name;
and in every environment two requests that differ only in `TableName` produce
the same lookup input and the same run. -/
theorem getProfile_one_lookup_fixed_table (w : World) (r : foodieBuckRequest)
    (hc : w.loadDefaultConfig "us-east-2" = none) :
    (getProfile w r).lookups =
        [{ Key := [("pk", AttributeValue.S r.PK), ("sk", AttributeValue.S r.SK)]
           TableName := "dev.glennmeyer.dev-foodiebucks" }] ∧
      ∀ (w' : World) (t : String),
        getItemInput { r with TableName := t } = getItemInput r ∧
          getProfile w' { r with TableName := t } = getProfile w' r := by
  refine ⟨?_, fun w' t => ⟨rfl, rfl⟩⟩
  unfold getProfile
  rw [getProfileWith_lookups jsonMarshal w r hc]
  rfl

theorem getProfile_one_lookup_fixed_table_witness :
    (tableWorld [scenarioItem]).loadDefaultConfig "us-east-2" = none ∧
    ((getProfile (tableWorld [scenarioItem]) scenarioKey).lookups =
        [{ Key := [("pk", AttributeValue.S "USER#123"), ("sk", AttributeValue.S "PROFILE#123")]
           TableName := "dev.glennmeyer.dev-foodiebucks" }] ∧
      ∀ (w' : World) (t : String),
        getItemInput { scenarioKey with TableName := t } = getItemInput scenarioKey ∧
          getProfile w' { scenarioKey with TableName := t } = getProfile w' scenarioKey) :=
  ⟨rfl, getProfile_one_lookup_fixed_table (tableWorld [scenarioItem]) scenarioKey rfl⟩

/-- C8: when loading the configuration fails or the lookup returns an error,
`getProfile` ends in a process exit with status 1: it returns no response (so
no 500 response either), and after a configuration failure no lookup is
issued.  A `GET` request reaches exactly this run through the router. -/
theorem getProfile_fatal (w : World) (r : foodieBuckRequest)
    (h : w.loadDefaultConfig "us-east-2" ≠ none ∨
      ∃ e, w.getItem (getItemInput r) = .error e) :
    (getProfile w r).result = Result.exited 1 ∧
      (∀ resp err, (getProfile w r).result ≠ Result.returned resp err) ∧
      (w.loadDefaultConfig "us-east-2" ≠ none → (getProfile w r).lookups = []) ∧
      (∀ req : APIGatewayV2HTTPRequest, req.RequestContext.HTTP.Method = "GET" →
        (unmarshalAPIRequest req).1 = r → router w req = getProfile w r) := by
  have hres : (getProfile w r).result = Result.exited 1 := by
    unfold getProfile
    cases hc : w.loadDefaultConfig "us-east-2" with
    | some e => rw [getProfileWith_config_error jsonMarshal w r e hc]
    | none =>
      rcases h with h | ⟨e, he⟩
      · exact absurd hc h
      · rw [getProfileWith_store_error jsonMarshal w r e hc he]
  refine ⟨hres, ?_, ?_, ?_⟩
  · intro resp err hr
    rw [hres] at hr
    cases hr
  · intro hne
    cases hc : w.loadDefaultConfig "us-east-2" with
    | none => exact absurd hc hne
    | some e =>
      unfold getProfile
      rw [getProfileWith_config_error jsonMarshal w r e hc]
      rfl
  · intro req hm hr
    unfold router getProfile
    rw [router_get jsonMarshal w req hm, hr]

theorem getProfile_fatal_witness :
    ((failingConfigWorld.loadDefaultConfig "us-east-2" ≠ none ∨
        ∃ e, failingConfigWorld.getItem (getItemInput scenarioKey) = .error e) ∧
      (failingStoreWorld.loadDefaultConfig "us-east-2" ≠ none ∨
        ∃ e, failingStoreWorld.getItem (getItemInput scenarioKey) = .error e)) ∧
    ((getProfile failingConfigWorld scenarioKey).result = Result.exited 1 ∧
      (∀ resp err, (getProfile failingConfigWorld scenarioKey).result ≠
        Result.returned resp err) ∧
      (failingConfigWorld.loadDefaultConfig "us-east-2" ≠ none →
        (getProfile failingConfigWorld scenarioKey).lookups = []) ∧
      (∀ req : APIGatewayV2HTTPRequest, req.RequestContext.HTTP.Method = "GET" →
        (unmarshalAPIRequest req).1 = scenarioKey →
        router failingConfigWorld req = getProfile failingConfigWorld scenarioKey)) ∧
    ((getProfile failingStoreWorld scenarioKey).result = Result.exited 1 ∧
      (∀ resp err, (getProfile failingStoreWorld scenarioKey).result ≠
        Result.returned resp err) ∧
      (failingStoreWorld.loadDefaultConfig "us-east-2" ≠ none →
        (getProfile failingStoreWorld scenarioKey).lookups = []) ∧
      (∀ req : APIGatewayV2HTTPRequest, req.RequestContext.HTTP.Method = "GET" →
        (unmarshalAPIRequest req).1 = scenarioKey →
        router failingStoreWorld req = getProfile failingStoreWorld scenarioKey)) :=
  ⟨⟨Or.inl (by simp [failingConfigWorld]), Or.inr ⟨_, rfl⟩⟩,
   getProfile_fatal failingConfigWorld scenarioKey (Or.inl (by simp [failingConfigWorld])),
   getProfile_fatal failingStoreWorld scenarioKey (Or.inr ⟨_, rfl⟩)⟩

/-- C9: every response of the router whose status is not 200 has the standard
status text of its code as body and comes with a nil error, whatever
`json.Marshal` does; when `json.Marshal` fails the response is 500 with body
`Internal Server Error`; and `clientError sc` is status `sc` with body
`StatusText sc`. -/
theorem failure_response_is_status_text
    (marshal : FoodieBuckProfile → Except GoError String) (w : World)
    (r : APIGatewayV2HTTPRequest) (resp : APIGatewayV2HTTPResponse) (err : Option GoError)
    (h : (routerWith marshal w r).result = Result.returned resp err)
    (hs : resp.StatusCode ≠ 200) :
    resp.Body = StatusText resp.StatusCode ∧ err = none ∧
      (∀ (fbr : foodieBuckRequest) (data : GetItemOutput) (e : GoError),
        w.loadDefaultConfig "us-east-2" = none →
        w.getItem (getItemInput fbr) = .ok data →
        marshal (UnmarshalMap data.Item zeroProfile).1 = .error e →
        (getProfileWith marshal w fbr).result =
          Result.returned { StatusCode := 500, Body := "Internal Server Error" } none) ∧
      (∀ sc : Int, clientError sc = ({ StatusCode := sc, Body := StatusText sc }, none)) := by
  refine ⟨?_, ?_, ?_, fun sc => rfl⟩
  · by_cases hm : r.RequestContext.HTTP.Method = "GET"
    · rw [router_get marshal w r hm] at h
      unfold getProfileWith at h
      cases hc : w.loadDefaultConfig "us-east-2" with
      | some e => rw [hc] at h; cases h
      | none =>
        rw [hc] at h
        cases hg : w.getItem (getItemInput (unmarshalAPIRequest r).1) with
        | error e => rw [hg] at h; cases h
        | ok data =>
          rw [hg] at h
          simp only at h
          cases hj : marshal (UnmarshalMap data.Item zeroProfile).1 with
          | error e =>
            rw [hj] at h
            simp only [serverError, Result.returned.injEq] at h
            rw [← h.1]
          | ok json =>
            rw [hj] at h
            simp only [Result.returned.injEq] at h
            exact absurd (by rw [← h.1]; rfl) hs
    · rw [router_not_get marshal w r hm] at h
      simp only [Result.returned.injEq] at h
      rw [← h.1]
  · by_cases hm : r.RequestContext.HTTP.Method = "GET"
    · rw [router_get marshal w r hm] at h
      unfold getProfileWith at h
      cases hc : w.loadDefaultConfig "us-east-2" with
      | some e => rw [hc] at h; cases h
      | none =>
        rw [hc] at h
        cases hg : w.getItem (getItemInput (unmarshalAPIRequest r).1) with
        | error e => rw [hg] at h; cases h
        | ok data =>
          rw [hg] at h
          simp only at h
          cases hj : marshal (UnmarshalMap data.Item zeroProfile).1 with
          | error e =>
            rw [hj] at h
            simp only [serverError, Result.returned.injEq] at h
            exact h.2.symm
          | ok json =>
            rw [hj] at h
            simp only [Result.returned.injEq] at h
            exact h.2.symm
    · rw [router_not_get marshal w r hm] at h
      simp only [Result.returned.injEq] at h
      exact h.2.symm
  · intro fbr data e hc hg hj
    unfold getProfileWith
    rw [hc, hg]
    simp only [hj, serverError, statusText_internalServerError]
    rfl

theorem failure_response_is_status_text_witness :
    ((routerWith failingMarshal (tableWorld [scenarioItem]) (mkRequest "GET" scenarioBody)).result =
        Result.returned { StatusCode := 500, Body := "Internal Server Error" } none ∧
      (500 : Int) ≠ 200) ∧
    ("Internal Server Error" = StatusText 500 ∧ (none : Option GoError) = none ∧
      (∀ (fbr : foodieBuckRequest) (data : GetItemOutput) (e : GoError),
        (tableWorld [scenarioItem]).loadDefaultConfig "us-east-2" = none →
        (tableWorld [scenarioItem]).getItem (getItemInput fbr) = .ok data →
        failingMarshal (UnmarshalMap data.Item zeroProfile).1 = .error e →
        (getProfileWith failingMarshal (tableWorld [scenarioItem]) fbr).result =
          Result.returned { StatusCode := 500, Body := "Internal Server Error" } none) ∧
      (∀ sc : Int, clientError sc = ({ StatusCode := sc, Body := StatusText sc }, none))) :=
  ⟨⟨by decide, by decide⟩,
   failure_response_is_status_text failingMarshal (tableWorld [scenarioItem])
     (mkRequest "GET" scenarioBody) { StatusCode := 500, Body := "Internal Server Error" } none
     (by decide) (by decide)⟩

/-- C10, refuted as stated: the body with a number for `tableName` fails to
decode (a type error), yet `pk` and `sk` were stored before the error, so the
lookup is made with them and finds the scenario item; `getProfile` for the
zero-valued request returns something else. -/
theorem router_type_error_keeps_decoded_fields :
    (unmarshalAPIRequest (mkRequest "GET" mistypedBody)).2 = some (GoError.jsonType "number") ∧
      (unmarshalAPIRequest (mkRequest "GET" mistypedBody)).1 =
        { PK := "USER#123", SK := "PROFILE#123", TableName := "" } ∧
      (router (tableWorld [scenarioItem]) (mkRequest "GET" mistypedBody)).result =
        Result.returned { StatusCode := 200, Body := scenarioProfileBody } none ∧
      (getProfile (tableWorld [scenarioItem]) zeroRequest).result =
        Result.returned { StatusCode := 200, Body := zeroProfileBody } none ∧
      (router (tableWorld [scenarioItem]) (mkRequest "GET" mistypedBody)).result ≠
        (getProfile (tableWorld [scenarioItem]) zeroRequest).result := by
  refine ⟨by decide, by decide, by decide, by decide, by decide⟩

/-- C10, amended: for a `GET` request whose body fails to decode, the router
drops the 422 result and returns exactly what `getProfile` returns for the
request the decoder left behind; when the body is no JSON object (it is not
well-formed JSON, or a value of another kind) that request is the zero-valued
one, and the lookup is issued with empty partition and sort keys. -/
theorem router_get_decode_failure (w : World) (r : APIGatewayV2HTTPRequest)
    (hm : r.RequestContext.HTTP.Method = "GET")
    (herr : (unmarshalAPIRequest r).2 ≠ none) :
    (∃ e, (unmarshalAPIRequest r).2 = some e ∧
        router w r = getProfile w (unmarshalAPIRequest r).1) ∧
      (bodyNotObject r →
        (unmarshalAPIRequest r).1 = zeroRequest ∧
        router w r = getProfile w zeroRequest ∧
        (w.loadDefaultConfig "us-east-2" = none →
          (router w r).lookups =
            [{ Key := [("pk", AttributeValue.S ""), ("sk", AttributeValue.S "")]
               TableName := tableName }])) := by
  have hrun : router w r = getProfile w (unmarshalAPIRequest r).1 := by
    unfold router getProfile
    exact router_get jsonMarshal w r hm
  refine ⟨?_, fun hno => ?_⟩
  · cases he : (unmarshalAPIRequest r).2 with
    | none => exact absurd he herr
    | some e => exact ⟨e, rfl, hrun⟩
  have hz := unmarshalAPIRequest_not_object r hno
  refine ⟨hz, by rw [hrun, hz], fun hc => ?_⟩
  rw [hrun, hz]
  unfold getProfile
  rw [getProfileWith_lookups jsonMarshal w zeroRequest hc]
  rfl

theorem router_get_decode_failure_witness :
    ((mkRequest "GET" "\x7b\"pk\":").RequestContext.HTTP.Method = "GET" ∧
      (unmarshalAPIRequest (mkRequest "GET" "\x7b\"pk\":")).2 = some GoError.jsonSyntax ∧
      bodyNotObject (mkRequest "GET" "\x7b\"pk\":")) ∧
    ((∃ e, (unmarshalAPIRequest (mkRequest "GET" "\x7b\"pk\":")).2 = some e ∧
        router (tableWorld [scenarioItem]) (mkRequest "GET" "\x7b\"pk\":") =
          getProfile (tableWorld [scenarioItem])
            (unmarshalAPIRequest (mkRequest "GET" "\x7b\"pk\":")).1) ∧
      (bodyNotObject (mkRequest "GET" "\x7b\"pk\":") →
        (unmarshalAPIRequest (mkRequest "GET" "\x7b\"pk\":")).1 = zeroRequest ∧
        router (tableWorld [scenarioItem]) (mkRequest "GET" "\x7b\"pk\":") =
          getProfile (tableWorld [scenarioItem]) zeroRequest ∧
        ((tableWorld [scenarioItem]).loadDefaultConfig "us-east-2" = none →
          (router (tableWorld [scenarioItem]) (mkRequest "GET" "\x7b\"pk\":")).lookups =
            [{ Key := [("pk", AttributeValue.S ""), ("sk", AttributeValue.S "")]
               TableName := tableName }]))) :=
  ⟨⟨rfl, by decide, fun ms h => by
      have hp : parseJSON (mkRequest "GET" "\x7b\"pk\":").Body.data = none := rfl
      rw [hp] at h
      cases h⟩,
   router_get_decode_failure (tableWorld [scenarioItem]) (mkRequest "GET" "\x7b\"pk\":") rfl
     (by decide)⟩

end FoodieBucks
